import Mathlib

/-!
Shallow embedding of `nmproxy/router/iptables.go` (netclient): the
iptables routing-rule manager.  The Go functions are translated into pure
Lean functions; the package-level state `iptablesManager.ingRules` is
passed and returned explicitly, and every call issued to the go-iptables
actuator boundary is recorded in a trace.  A separate firewall-state model
gives the semantics of those actuator calls.
-/

namespace NC

/-- argument list of one iptables rule (a rulespec) -/
abbrev Args := List String

/-- address family, selecting one of the two iptables client instances
(`ipv4Client` / `ipv6Client`) -/
inductive Fam
  | v4
  | v6
deriving DecidableEq

/-- mirror of the Go struct `ruleInfo`: one low-level rule plus the table
and chain it lives in -/
structure RuleInfo where
  rule : Args
  table : String
  chain : String
deriving DecidableEq

/-- one call issued to the go-iptables actuator boundary, tagged with the
family of the client instance it goes through -/
inductive ActCall
  | insertRule (fam : Fam) (table chain : String) (pos : Nat) (args : Args)
  | appendRule (fam : Fam) (table chain : String) (args : Args)
  | deleteIfExists (fam : Fam) (table chain : String) (args : Args)
  | listChains (fam : Fam) (table : String)
  | newChain (fam : Fam) (table chain : String)
  | clearAndDeleteChain (fam : Fam) (table chain : String)
deriving DecidableEq

/-- family of the client instance an actuator call goes through -/
def ActCall.fam : ActCall → Fam
  | .insertRule f _ _ _ _ => f
  | .appendRule f _ _ _ => f
  | .deleteIfExists f _ _ _ => f
  | .listChains f _ => f
  | .newChain f _ _ => f
  | .clearAndDeleteChain f _ _ => f

/-- true exactly for an insert call at position 1, the only kind of insert
the manager ever issues -/
def ActCall.ins1 : ActCall → Bool
  | .insertRule _ _ _ pos _ => pos == 1
  | _ => false

/-- abstraction of the address values handed to the manager.  In the
source these are `net.IPNet` values whose `String()` form is fed to
`netip.ParsePrefix`; `ok isV6 s` stands for a value whose string form `s`
parses, with `Addr().Unmap().Is6() = isV6`, and `bad s` for one whose
string form fails to parse. -/
inductive IPAddr
  | ok (isV6 : Bool) (s : String)
  | bad (s : String)
deriving DecidableEq

/-- the `String()` form of an address value -/
def IPAddr.printed : IPAddr → String
  | .ok _ s => s
  | .bad s => s

/-- combined result of `netip.ParsePrefix` on the printed form and
`prefix.Addr().Unmap().Is6()`: `some isV6` on success, `none` on a parse
error -/
def parseCIDR : IPAddr → Option Bool
  | .ok isV6 _ => some isV6
  | .bad _ => none

/-- mirror of `models.PeerExtInfo`: one peer entry of the bulk input -/
structure PeerExtInfo where
  PeerKey : String
  PeerAddr : IPAddr
  Allow : Bool
deriving DecidableEq

/-- mirror of `models.ExtClientInfo` restricted to the fields the manager
reads; the spec describes `Peers` as a list of `(peerKey, peerAddr, allow)`
tuples -/
structure ExtClientInfo where
  ExtPeerKey : String
  ExtPeerAddr : IPAddr
  Masquerade : Bool
  Peers : List PeerExtInfo
deriving DecidableEq

/-- constant `defaultIpTable` -/
def defaultIpTable : String := "filter"

/-- constant `netmakerFilterChain` -/
def netmakerFilterChain : String := "netmakerfilter"

/-- constant `defaultNatTable` -/
def defaultNatTable : String := "nat"

/-- constant `netmakerNatChain` -/
def netmakerNatChain : String := "netmakernat"

/-- constant `iptableFWDChain` -/
def iptableFWDChain : String := "FORWARD"

/-- constant `nattablePRTChain` -/
def nattablePRTChain : String := "POSTROUTING"

/-- value of `ncutils.GetInterfaceName()`, the VPN interface name used in
the jump rules (the nat masquerade rules use the literal "netmaker") -/
def ifaceName : String := "netmaker"

/-- name of the ingress rule-table namespace.  The constant
`ingressTable` is declared in the repository outside the embedded file;
only its identity matters here, since every call site passes this same
constant. -/
def ingressTable : String := "ingress"

/-- filter table netmaker jump rules (source `filterNmJumpRules`) -/
def filterNmJumpRules : List RuleInfo :=
  [ ⟨["-i", ifaceName, "-j", netmakerFilterChain], defaultIpTable, iptableFWDChain⟩,
    ⟨["-i", ifaceName, "-j", "DROP"], defaultIpTable, netmakerFilterChain⟩,
    ⟨["-i", ifaceName, "-j", "RETURN"], defaultIpTable, netmakerFilterChain⟩ ]

/-- nat table netmaker jump rules (source `natNmJumpRules`) -/
def natNmJumpRules : List RuleInfo :=
  [ ⟨["-o", ifaceName, "-j", netmakerNatChain], defaultNatTable, nattablePRTChain⟩,
    ⟨["-j", "RETURN"], defaultNatTable, netmakerNatChain⟩ ]

/-- association-list model of a Go map with string keys: lookup `m[k]`
returns the first matching entry (Go maps have unique keys) -/
def alookup {α : Type} (k : String) : List (String × α) → Option α
  | [] => none
  | e :: l => if e.1 = k then some e.2 else alookup k l

/-- map write `m[k] = v`: replaces the first entry for `k` in place,
appends a fresh entry when `k` is absent -/
def ainsert {α : Type} (k : String) (v : α) : List (String × α) → List (String × α)
  | [] => [(k, v)]
  | e :: l => if e.1 = k then (k, v) :: l else e :: ainsert k v l

/-- map deletion `delete(m, k)` -/
def aerase {α : Type} (k : String) (l : List (String × α)) : List (String × α) :=
  l.filter (fun e => decide (e.1 ≠ k))

/-- mirror of the Go struct `rulesCfg`: the address-family flag of a
client entry together with its per-peer rules map.  The type is declared
in the repository outside the embedded file; its shape is fully determined
by the uses in the embedded file. -/
structure RulesCfg where
  isIpv4 : Bool
  rulesMap : List (String × List RuleInfo)
deriving DecidableEq

/-- Go type `ruletable`: per-client map of rule configurations -/
abbrev Ruletable := List (String × RulesCfg)

/-- Go type `serverrulestable`: the per-server map of ruletables, the
`ingRules` field of `iptablesManager` -/
abbrev ServerRules := List (String × Ruletable)

/-- error values returned by the manager operations -/
inductive Err
  | parseFail (s : String)
  | peerNotFound (k : String)
  | rulesNotFound (k : String)
deriving DecidableEq

/-- outcome of one manager operation.  `panicked` models a Go runtime
panic (assignment to the nil `rulesMap` of a zero-value `rulesCfg`). -/
inductive Res
  | ok
  | fail (e : Err)
  | panicked
deriving DecidableEq

/-- result of running one manager operation: the returned value, the new
`ingRules` state, and the actuator calls issued, in order -/
structure StepRes where
  res : Res
  ing : ServerRules
  trace : List ActCall
deriving DecidableEq

/-- embedding of `FetchRuleTable`: returns the server's ruletable,
an empty one when the server has no entry (the `switch` only handles
`ingressTable`; for any other name the nil ruletable is returned) -/
def fetchRuleTable (ing : ServerRules) (server tableName : String) : Ruletable :=
  if tableName = ingressTable then (alookup server ing).getD [] else []

/-- embedding of `SaveRules`: stores the ruletable under the server key
(again only the `ingressTable` case of the `switch` writes) -/
def saveRules (ing : ServerRules) (server tableName : String) (rules : Ruletable) : ServerRules :=
  if tableName = ingressTable then ainsert server rules ing else ing

/-- family selection: `iptablesClient := ipv4Client; if isV6 { ipv6Client }` -/
def famOf (isV6 : Bool) : Fam :=
  if isV6 then .v6 else .v4

/-- rulespec of the per-peer filter allow rule built by
`InsertIngressRoutingRules` -/
def filterRuleSpec (ext : ExtClientInfo) (p : PeerExtInfo) : Args :=
  ["-s", ext.ExtPeerAddr.printed, "-d", p.PeerAddr.printed, "-j", "ACCEPT"]

/-- first nat masquerade rulespec (client address as source) -/
def natRuleSpecSrc (ext : ExtClientInfo) : Args :=
  ["-s", ext.ExtPeerAddr.printed, "-o", "netmaker", "-j", "MASQUERADE"]

/-- second nat masquerade rulespec (client address as destination) -/
def natRuleSpecDst (ext : ExtClientInfo) : Args :=
  ["-d", ext.ExtPeerAddr.printed, "-o", "netmaker", "-j", "MASQUERADE"]

/-- per-peer loop of `InsertIngressRoutingRules` acting on the client
entry's `rulesMap`: peers with `Allow = false` are skipped, an allowed
peer's one-rule group is written under its key.  In Go each iteration
mutates the `rulesMap` referenced by the freshly stored client entry; here
the map is threaded explicitly. -/
def insertPeersMap (ext : ExtClientInfo) : List PeerExtInfo → List (String × List RuleInfo) → List (String × List RuleInfo)
  | [], rm => rm
  | p :: ps, rm =>
      if p.Allow then
        insertPeersMap ext ps (ainsert p.PeerKey [⟨filterRuleSpec ext p, defaultIpTable, netmakerFilterChain⟩] rm)
      else
        insertPeersMap ext ps rm

/-- actuator calls issued by the per-peer loop, in loop order -/
def insertPeersTrace (fam : Fam) (ext : ExtClientInfo) : List PeerExtInfo → List ActCall
  | [] => []
  | p :: ps =>
      if p.Allow then
        .insertRule fam defaultIpTable netmakerFilterChain 1 (filterRuleSpec ext p) :: insertPeersTrace fam ext ps
      else
        insertPeersTrace fam ext ps

/-- embedding of `InsertIngressRoutingRules`.  The deferred
`SaveRules` runs on every return path, including the parse-error one, so
even that path stores the fetched (possibly fresh empty) ruletable under
the server key.  On success a fresh client entry (family flag from the
client's own address, fresh rules map) overwrites any previous one; the
masquerade branch then appends the two nat rules to the group stored
under the client's own key. -/
def insertIngressRoutingRules (ing : ServerRules) (server : String) (ext : ExtClientInfo) : StepRes :=
  let ruleTable := fetchRuleTable ing server ingressTable
  match parseCIDR ext.ExtPeerAddr with
  | none => ⟨.fail (.parseFail ext.ExtPeerAddr.printed), saveRules ing server ingressTable ruleTable, []⟩
  | some isV6 =>
      let fam := famOf isV6
      let rm := insertPeersMap ext ext.Peers []
      let tr := insertPeersTrace fam ext ext.Peers
      if ext.Masquerade then
        let routes := ((alookup ext.ExtPeerKey rm).getD []) ++
          [⟨natRuleSpecSrc ext, defaultNatTable, netmakerNatChain⟩,
           ⟨natRuleSpecDst ext, defaultNatTable, netmakerNatChain⟩]
        let rm2 := ainsert ext.ExtPeerKey routes rm
        ⟨.ok, saveRules ing server ingressTable (ainsert ext.ExtPeerKey ⟨!isV6, rm2⟩ ruleTable),
          tr ++ [.insertRule fam defaultNatTable netmakerNatChain 1 (natRuleSpecSrc ext),
                 .insertRule fam defaultNatTable netmakerNatChain 1 (natRuleSpecDst ext)]⟩
      else
        ⟨.ok, saveRules ing server ingressTable (ainsert ext.ExtPeerKey ⟨!isV6, rm⟩ ruleTable), tr⟩

/-- embedding of `AddIngressRoutingRule`.  The actuator insert happens
before the rule-table write.  When the client entry is absent, the Go
expression `ruleTable[extPeerKey]` yields the zero value of `rulesCfg`,
whose `rulesMap` is the nil map, and the following assignment
`ruleTable[extPeerKey].rulesMap[peerInfo.PeerKey] = ...` panics at
runtime; the deferred `SaveRules` (and `mux.Unlock`) still run while the
panic unwinds. -/
def addIngressRoutingRule (ing : ServerRules) (server extPeerKey : String) (peerInfo : PeerExtInfo) : StepRes :=
  let ruleTable := fetchRuleTable ing server ingressTable
  match parseCIDR peerInfo.PeerAddr with
  | none => ⟨.fail (.parseFail peerInfo.PeerAddr.printed), saveRules ing server ingressTable ruleTable, []⟩
  | some isV6 =>
      let fam := famOf isV6
      let ruleSpec : Args := ["-d", peerInfo.PeerAddr.printed, "-j", "ACCEPT"]
      let tr : List ActCall := [.insertRule fam defaultIpTable netmakerFilterChain 1 ruleSpec]
      match alookup extPeerKey ruleTable with
      | none => ⟨.panicked, saveRules ing server ingressTable ruleTable, tr⟩
      | some cfg =>
          let cfg2 : RulesCfg :=
            ⟨cfg.isIpv4, ainsert peerInfo.PeerKey [⟨ruleSpec, defaultIpTable, netmakerFilterChain⟩] cfg.rulesMap⟩
          ⟨.ok, saveRules ing server ingressTable (ainsert extPeerKey cfg2 ruleTable), tr⟩

/-- embedding of `RemoveRoutingRules`: not-found error when the peer key
has no entry, otherwise one `DeleteIfExists` per recorded rule (through
the client instance of the entry's recorded family) and deletion of the
entry.  The model's `DeleteIfExists` never fails, so the abort-on-error
path of the source does not arise. -/
def removeRoutingRules (ing : ServerRules) (server ruletableName peerKey : String) : StepRes :=
  let rulesTable := fetchRuleTable ing server ruletableName
  match alookup peerKey rulesTable with
  | none => ⟨.fail (.peerNotFound peerKey), saveRules ing server ruletableName rulesTable, []⟩
  | some cfg =>
      let fam := if cfg.isIpv4 then Fam.v4 else Fam.v6
      let tr := (cfg.rulesMap.map (fun e => e.2.map (fun r => ActCall.deleteIfExists fam r.table r.chain r.rule))).flatten
      ⟨.ok, saveRules ing server ruletableName (aerase peerKey rulesTable), tr⟩

/-- embedding of `DeleteRoutingRule`: not-found errors when the client or
the specific pairing is absent, otherwise one `DeleteIfExists` per rule of
the pairing's group.  The rule table itself is returned unchanged: the
source never deletes `dstPeerKey` from the client's `rulesMap`. -/
def deleteRoutingRule (ing : ServerRules) (server ruletableName srcPeerKey dstPeerKey : String) : StepRes :=
  let rulesTable := fetchRuleTable ing server ruletableName
  match alookup srcPeerKey rulesTable with
  | none => ⟨.fail (.peerNotFound srcPeerKey), saveRules ing server ruletableName rulesTable, []⟩
  | some cfg =>
      let fam := if cfg.isIpv4 then Fam.v4 else Fam.v6
      match alookup dstPeerKey cfg.rulesMap with
      | some rules =>
          ⟨.ok, saveRules ing server ruletableName rulesTable,
            rules.map (fun r => ActCall.deleteIfExists fam r.table r.chain r.rule)⟩
      | none => ⟨.fail (.rulesNotFound dstPeerKey), saveRules ing server ruletableName rulesTable, []⟩

/-- two `DeleteIfExists` calls (v4 client then v6 client) for one jump
rule, as issued by `removeJumpRules` -/
def jumpDeletePair (r : RuleInfo) : List ActCall :=
  [.deleteIfExists .v4 r.table r.chain r.rule, .deleteIfExists .v6 r.table r.chain r.rule]

/-- actuator calls of `removeJumpRules`, in order -/
def removeJumpRulesTrace : List ActCall :=
  (filterNmJumpRules.map jumpDeletePair).flatten ++ (natNmJumpRules.map jumpDeletePair).flatten

/-- two `Append` calls (v4 client then v6 client) for one jump rule, as
issued by `addJumpRules` -/
def jumpAppendPair (r : RuleInfo) : List ActCall :=
  [.appendRule .v4 r.table r.chain r.rule, .appendRule .v6 r.table r.chain r.rule]

/-- actuator calls of `addJumpRules`, in order -/
def addJumpRulesTrace : List ActCall :=
  (filterNmJumpRules.map jumpAppendPair).flatten ++ (natNmJumpRules.map jumpAppendPair).flatten

/-- actuator calls of `cleanup(table, chain)`: `ClearAndDeleteChain` on
the v4 client then on the v6 client -/
def cleanupTrace (table chain : String) : List ActCall :=
  [.clearAndDeleteChain .v4 table chain, .clearAndDeleteChain .v6 table chain]

/-- embedding of `FlushAll`: it touches only the firewall (jump-rule
removal followed by clearing and deleting both custom chains) and leaves
`ingRules` untouched -/
def flushAll (ing : ServerRules) : ServerRules × List ActCall :=
  (ing, removeJumpRulesTrace ++ cleanupTrace defaultIpTable netmakerFilterChain ++
    cleanupTrace defaultNatTable netmakerNatChain)

/-- chain key of the firewall model: family, table, chain name -/
abbrev CKey := Fam × String × String

/-- state of the external firewall engine: the set of user-defined chains
that exist, and the ordered rule list of every chain -/
structure Firewall where
  chains : List CKey
  rules : CKey → List Args

/-- built-in chains that always exist in a table -/
def builtinChain (table chain : String) : Bool :=
  (table = defaultIpTable && (chain = "INPUT" || chain = "FORWARD" || chain = "OUTPUT")) ||
  (table = defaultNatTable && (chain = "PREROUTING" || chain = "INPUT" || chain = "OUTPUT" || chain = "POSTROUTING"))

/-- a chain exists if it is built in or has been created -/
def chainOk (cs : List CKey) (k : CKey) : Bool :=
  builtinChain k.2.1 k.2.2 || decide (k ∈ cs)

/-- pointwise update of one chain's rule list -/
def setRules (fw : Firewall) (k : CKey) (l : List Args) : Firewall :=
  { fw with rules := fun k2 => if k2 = k then l else fw.rules k2 }

/-- insertion at a 1-based iptables position (position 1 prepends) -/
def listInsertAt {α : Type} : Nat → α → List α → List α
  | 0, a, l => a :: l
  | _ + 1, a, [] => [a]
  | n + 1, a, x :: l => x :: listInsertAt n a l

/-- semantics of one actuator call on the firewall state.  Inserting,
appending or deleting in a chain that does not exist is a no-op (the
engine reports an error which the callers log or, for `DeleteIfExists`,
which the exists-check turns into a clean no-op); a newly created chain is
empty; `ClearAndDeleteChain` on a missing chain is a no-op. -/
def applyCall (fw : Firewall) : ActCall → Firewall
  | .insertRule fam table chain pos args =>
      let k : CKey := (fam, table, chain)
      if chainOk fw.chains k then setRules fw k (listInsertAt (pos - 1) args (fw.rules k)) else fw
  | .appendRule fam table chain args =>
      let k : CKey := (fam, table, chain)
      if chainOk fw.chains k then setRules fw k (fw.rules k ++ [args]) else fw
  | .deleteIfExists fam table chain args =>
      let k : CKey := (fam, table, chain)
      if chainOk fw.chains k then setRules fw k ((fw.rules k).erase args) else fw
  | .listChains _ _ => fw
  | .newChain fam table chain =>
      let k : CKey := (fam, table, chain)
      { chains := fw.chains ++ [k], rules := (setRules fw k []).rules }
  | .clearAndDeleteChain fam table chain =>
      let k : CKey := (fam, table, chain)
      if decide (k ∈ fw.chains) then
        { chains := fw.chains.filter (fun c => decide (c ≠ k)), rules := (setRules fw k []).rules }
      else fw

/-- left-to-right application of a call trace -/
def applyTrace (fw : Firewall) (t : List ActCall) : Firewall :=
  t.foldl applyCall fw

/-- embedding of `createChain`: list the chains, create the chain only
when absent -/
def createChainStep (fw : Firewall) (fam : Fam) (table chain : String) : Firewall :=
  if chainOk fw.chains (fam, table, chain) then fw else applyCall fw (.newChain fam table chain)

/-- embedding of `CreateChains` as a firewall-state transformer: remove
the jump rules, clear and delete both custom chains (both families),
re-create the four custom chains, re-append the jump rules.  In the model
`ListChains` cannot fail, so the error returns of the source do not
arise. -/
def createChainsFw (fw : Firewall) : Firewall :=
  let f1 := applyTrace fw removeJumpRulesTrace
  let f2 := applyTrace f1 (cleanupTrace defaultIpTable netmakerFilterChain)
  let f3 := applyTrace f2 (cleanupTrace defaultNatTable netmakerNatChain)
  let f4 := createChainStep f3 .v4 defaultIpTable netmakerFilterChain
  let f5 := createChainStep f4 .v4 defaultNatTable netmakerNatChain
  let f6 := createChainStep f5 .v6 defaultIpTable netmakerFilterChain
  let f7 := createChainStep f6 .v6 defaultNatTable netmakerNatChain
  applyTrace f7 addJumpRulesTrace

/-- equality of firewall states: same chain set and pointwise equal rule
lists -/
def fwEquiv (a b : Firewall) : Prop :=
  a.chains = b.chains ∧ ∀ k : CKey, a.rules k = b.rules k

/-- chain key of the FORWARD chain of the filter table -/
def kFWD (f : Fam) : CKey := (f, defaultIpTable, iptableFWDChain)

/-- chain key of the custom netmaker filter chain -/
def kNMF (f : Fam) : CKey := (f, defaultIpTable, netmakerFilterChain)

/-- chain key of the POSTROUTING chain of the nat table -/
def kPRT (f : Fam) : CKey := (f, defaultNatTable, nattablePRTChain)

/-- chain key of the custom netmaker nat chain -/
def kNMN (f : Fam) : CKey := (f, defaultNatTable, netmakerNatChain)

/-- rulespec of the jump rule from FORWARD into the netmaker filter chain -/
def fwdJumpSpec : Args := ["-i", ifaceName, "-j", netmakerFilterChain]

/-- rulespec of the catch-all drop rule of the netmaker filter chain -/
def dropJumpSpec : Args := ["-i", ifaceName, "-j", "DROP"]

/-- rulespec of the catch-all return rule of the netmaker filter chain -/
def retJumpSpec : Args := ["-i", ifaceName, "-j", "RETURN"]

/-- rulespec of the jump rule from POSTROUTING into the netmaker nat chain -/
def natJumpSpec : Args := ["-o", ifaceName, "-j", netmakerNatChain]

/-- rulespec of the catch-all return rule of the netmaker nat chain -/
def natRetSpec : Args := ["-j", "RETURN"]

/-- the four custom chains in the order `CreateChains` creates them -/
def customChains : List CKey := [kNMF .v4, kNMN .v4, kNMF .v6, kNMN .v6]

/-- the eight chain keys touched by `CreateChains` -/
def touchedKeys : List CKey :=
  [kFWD .v4, kFWD .v6, kNMF .v4, kNMF .v6, kPRT .v4, kPRT .v6, kNMN .v4, kNMN .v6]

/-- removal of the four custom chains from a chain list, as performed by
the two cleanups of `CreateChains` -/
def filt4 (l : List CKey) : List CKey :=
  (((l.filter (fun c => decide (c ≠ kNMF .v4))).filter
    (fun c => decide (c ≠ kNMF .v6))).filter
    (fun c => decide (c ≠ kNMN .v4))).filter
    (fun c => decide (c ≠ kNMN .v6))

/-- state of `CreateChains` after the jump-rule removal pass -/
def ccF1 (fw : Firewall) : Firewall := applyTrace fw removeJumpRulesTrace

/-- state of `CreateChains` after the two chain cleanups -/
def ccF3 (fw : Firewall) : Firewall :=
  applyTrace (applyTrace (ccF1 fw) (cleanupTrace defaultIpTable netmakerFilterChain))
    (cleanupTrace defaultNatTable netmakerNatChain)

/-- state of `CreateChains` after re-creating the four custom chains -/
def ccF7 (fw : Firewall) : Firewall :=
  createChainStep (createChainStep (createChainStep (createChainStep (ccF3 fw)
    .v4 defaultIpTable netmakerFilterChain) .v4 defaultNatTable netmakerNatChain)
    .v6 defaultIpTable netmakerFilterChain) .v6 defaultNatTable netmakerNatChain

/-- contribution of one position-1 insert call to the rule list of chain
`k`, given the (invariant) chain set `cs` -/
def insContrib (cs : List CKey) (k : CKey) : ActCall → List Args
  | .insertRule f t c _ a => if (f, t, c) = k ∧ chainOk cs (f, t, c) = true then [a] else []
  | _ => []

/-- rules accumulated in chain `k` by a trace of position-1 inserts,
newest first -/
def insAcc (cs : List CKey) (k : CKey) : List ActCall → List Args
  | [] => []
  | c :: t => insAcc cs k t ++ insContrib cs k c

/-- whether an actuator call can modify the rule list of chain `k` -/
def callTouches (c : ActCall) (k : CKey) : Bool :=
  match c with
  | .insertRule f t ch _ _ => decide (((f, t, ch) : CKey) = k)
  | .appendRule f t ch _ => decide (((f, t, ch) : CKey) = k)
  | .deleteIfExists f t ch _ => decide (((f, t, ch) : CKey) = k)
  | .listChains _ _ => false
  | .newChain f t ch => decide (((f, t, ch) : CKey) = k)
  | .clearAndDeleteChain f t ch => decide (((f, t, ch) : CKey) = k)

/-- whether an actuator call leaves the set of existing chains unchanged -/
def callKeepsChains : ActCall → Bool
  | .newChain _ _ _ => false
  | .clearAndDeleteChain _ _ _ => false
  | _ => true

/-! Association-list lemmas: the Go-map operations modelled above. -/

@[simp]
theorem alookup_nil {α : Type} (k : String) : alookup k ([] : List (String × α)) = none := rfl

theorem alookup_cons {α : Type} (k : String) (e : String × α) (l : List (String × α)) :
    alookup k (e :: l) = if e.1 = k then some e.2 else alookup k l := rfl

@[simp]
theorem alookup_ainsert_self {α : Type} (k : String) (v : α) (l : List (String × α)) :
    alookup k (ainsert k v l) = some v := by
  induction l with
  | nil => simp [ainsert, alookup]
  | cons e l ih =>
      by_cases h : e.1 = k
      · simp [ainsert, alookup, h]
      · simp [ainsert, alookup, h, ih]

theorem alookup_ainsert_ne {α : Type} (k k2 : String) (v : α) (l : List (String × α))
    (h : k2 ≠ k) : alookup k2 (ainsert k v l) = alookup k2 l := by
  induction l with
  | nil => simp [ainsert, alookup, Ne.symm h]
  | cons e l ih =>
      by_cases he : e.1 = k
      · subst he
        simp [ainsert, alookup, Ne.symm h]
      · simp only [ainsert, if_neg he, alookup_cons]
        by_cases he2 : e.1 = k2 <;> simp [he2, ih]

theorem ainsert_ainsert_same {α : Type} (k : String) (v w : α) (l : List (String × α)) :
    ainsert k v (ainsert k w l) = ainsert k v l := by
  induction l with
  | nil => simp [ainsert]
  | cons e l ih =>
      by_cases h : e.1 = k
      · simp [ainsert, h]
      · simp [ainsert, h, ih]

theorem ainsert_of_alookup_none {α : Type} (k : String) (v : α) (l : List (String × α))
    (h : alookup k l = none) : ainsert k v l = l ++ [(k, v)] := by
  induction l with
  | nil => simp [ainsert]
  | cons e l ih =>
      by_cases he : e.1 = k
      · simp [alookup, he] at h
      · simp only [alookup, if_neg he] at h
        simp [ainsert, he, ih h]

theorem alookup_append {α : Type} (k : String) (l m : List (String × α)) :
    alookup k (l ++ m) =
      match alookup k l with
      | some v => some v
      | none => alookup k m := by
  induction l with
  | nil => simp [alookup]
  | cons e l ih =>
      by_cases he : e.1 = k
      · simp [alookup, he]
      · simp [alookup, he, ih]

@[simp]
theorem alookup_aerase_self {α : Type} (k : String) (l : List (String × α)) :
    alookup k (aerase k l) = none := by
  induction l with
  | nil => simp [aerase]
  | cons e l ih =>
      by_cases he : e.1 = k
      · simpa [aerase, he] using ih
      · simpa [aerase, List.filter_cons, he, alookup, ih] using ih

/-! Fetch and save lemmas. -/

theorem fetch_save (ing : ServerRules) (server : String) (rt : Ruletable) :
    fetchRuleTable (saveRules ing server ingressTable rt) server ingressTable = rt := by
  simp [fetchRuleTable, saveRules]

/-! Lemmas about the per-peer loop of `InsertIngressRoutingRules`. -/

theorem insertPeersTrace_eq (fam : Fam) (ext : ExtClientInfo) (ps : List PeerExtInfo) :
    insertPeersTrace fam ext ps =
      (ps.filter (fun p => p.Allow)).map
        (fun p => ActCall.insertRule fam defaultIpTable netmakerFilterChain 1 (filterRuleSpec ext p)) := by
  induction ps with
  | nil => rfl
  | cons p ps ih =>
      by_cases hp : p.Allow <;> simp [insertPeersTrace, List.filter_cons, hp, ih]

theorem insertPeersTrace_fam (fam : Fam) (ext : ExtClientInfo) (ps : List PeerExtInfo) :
    ∀ c ∈ insertPeersTrace fam ext ps, c.fam = fam := by
  intro c hc
  rw [insertPeersTrace_eq] at hc
  simp only [List.mem_map] at hc
  obtain ⟨p, _, rfl⟩ := hc
  rfl

theorem insertPeersTrace_ins1 (fam : Fam) (ext : ExtClientInfo) (ps : List PeerExtInfo) :
    ∀ c ∈ insertPeersTrace fam ext ps, c.ins1 = true := by
  intro c hc
  rw [insertPeersTrace_eq] at hc
  simp only [List.mem_map] at hc
  obtain ⟨p, _, rfl⟩ := hc
  rfl

theorem insertPeersMap_skip (ext : ExtClientInfo) (key : String) (ps : List PeerExtInfo)
    (rm : List (String × List RuleInfo))
    (h : ∀ q ∈ ps, q.PeerKey = key → q.Allow = false) :
    alookup key (insertPeersMap ext ps rm) = alookup key rm := by
  induction ps generalizing rm with
  | nil => rfl
  | cons p ps ih =>
      by_cases hp : p.Allow
      · have hne : p.PeerKey ≠ key := by
          intro hk
          have := h p (by simp) hk
          rw [this] at hp
          exact Bool.noConfusion hp
        simp only [insertPeersMap, if_pos hp]
        rw [ih _ (fun q hq => h q (by simp [hq]))]
        exact alookup_ainsert_ne _ _ _ _ (Ne.symm hne)
      · simp only [insertPeersMap, if_neg hp]
        exact ih _ (fun q hq => h q (by simp [hq]))

theorem alookup_pairs_none {β : Type} (key : String) (ps : List PeerExtInfo)
    (g : PeerExtInfo → β) (h : ∀ p ∈ ps, p.PeerKey ≠ key) :
    alookup key (ps.map (fun p => (p.PeerKey, g p))) = none := by
  induction ps with
  | nil => rfl
  | cons p ps ih =>
      simp only [List.map_cons, alookup_cons, if_neg (h p (by simp))]
      exact ih (fun q hq => h q (by simp [hq]))

theorem insertPeersMap_eq (ext : ExtClientInfo) (ps : List PeerExtInfo)
    (rm : List (String × List RuleInfo))
    (hnodup : (((ps.filter (fun p => p.Allow)).map (fun p => p.PeerKey))).Nodup)
    (hfresh : ∀ p ∈ ps, p.Allow = true → alookup p.PeerKey rm = none) :
    insertPeersMap ext ps rm =
      rm ++ (ps.filter (fun p => p.Allow)).map
        (fun p => (p.PeerKey, [⟨filterRuleSpec ext p, defaultIpTable, netmakerFilterChain⟩])) := by
  induction ps generalizing rm with
  | nil => simp [insertPeersMap]
  | cons p ps ih =>
      by_cases hp : p.Allow
      · simp only [List.filter_cons, hp, if_pos, List.map_cons] at hnodup ⊢
        have hfp : alookup p.PeerKey rm = none := hfresh p (by simp) hp
        simp only [insertPeersMap, if_pos hp]
        rw [ainsert_of_alookup_none _ _ _ hfp]
        have hf2 : ∀ q ∈ ps, q.Allow = true →
            alookup q.PeerKey
              (rm ++ [(p.PeerKey, [⟨filterRuleSpec ext p, defaultIpTable, netmakerFilterChain⟩])]) = none := by
          intro q hq hqa
          rw [alookup_append]
          rw [hfresh q (by simp [hq]) hqa]
          have hqp : q.PeerKey ≠ p.PeerKey := by
            intro hk
            have hmem : q.PeerKey ∈ (ps.filter (fun r => r.Allow)).map (fun r => r.PeerKey) := by
              simp only [List.mem_map, List.mem_filter]
              exact ⟨q, ⟨hq, hqa⟩, rfl⟩
            rw [hk] at hmem
            exact (List.nodup_cons.mp hnodup).1 hmem
          simp [alookup, Ne.symm hqp]
        rw [ih _ (List.Nodup.of_cons hnodup) hf2]
        simp
      · simp only [List.filter_cons, hp] at hnodup ⊢
        simp only [insertPeersMap, if_neg hp]
        exact ih rm hnodup (fun q hq hqa => hfresh q (by simp [hq]) hqa)

/-- Claim C1, amended: `DeleteRoutingRule` on `(server, ingress table, c, p)`
fails with the distinct not-found errors when `c` or the pairing `p` is
absent (with no actuator call), and otherwise issues exactly one removal
per rule of `p`'s recorded group through the entry's family instance — but
it leaves the rule table entirely unchanged: in particular `p`'s Rule
Group is not removed from `c`'s entry (and hence every other peer's group
and the client's nat rules are untouched as well). -/
theorem c1_delete_pairing (ing : ServerRules) (server c p : String) :
    (alookup c (fetchRuleTable ing server ingressTable) = none →
      (deleteRoutingRule ing server ingressTable c p).res = .fail (.peerNotFound c) ∧
      (deleteRoutingRule ing server ingressTable c p).trace = []) ∧
    (∀ cfg, alookup c (fetchRuleTable ing server ingressTable) = some cfg →
      (alookup p cfg.rulesMap = none →
        (deleteRoutingRule ing server ingressTable c p).res = .fail (.rulesNotFound p) ∧
        (deleteRoutingRule ing server ingressTable c p).trace = []) ∧
      (∀ rules, alookup p cfg.rulesMap = some rules →
        (deleteRoutingRule ing server ingressTable c p).res = .ok ∧
        (deleteRoutingRule ing server ingressTable c p).trace =
          rules.map (fun r =>
            ActCall.deleteIfExists (if cfg.isIpv4 then Fam.v4 else Fam.v6) r.table r.chain r.rule))) ∧
    fetchRuleTable (deleteRoutingRule ing server ingressTable c p).ing server ingressTable =
      fetchRuleTable ing server ingressTable := by
  refine ⟨?_, ?_, ?_⟩
  · intro h
    constructor <;> simp [deleteRoutingRule, h]
  · intro cfg h
    refine ⟨?_, ?_⟩
    · intro hp
      constructor <;> simp [deleteRoutingRule, h, hp]
    · intro rules hp
      constructor <;> simp [deleteRoutingRule, h, hp]
  · rcases h : alookup c (fetchRuleTable ing server ingressTable) with _ | cfg
    · simp [deleteRoutingRule, h, fetch_save]
    · rcases hp : alookup p cfg.rulesMap with _ | rules
      · simp [deleteRoutingRule, h, hp, fetch_save]
      · simp [deleteRoutingRule, h, hp, fetch_save]

/-- Claim C1, counterexample to the claim as stated: after authorizing
client "c" with the single allowed peer "p" and then calling
`DeleteRoutingRule` successfully, the pairing's Rule Group is still
recorded under "p" in "c"'s entry — the operation does not remove it from
the Rule Table. -/
theorem c1_counterexample :
    (deleteRoutingRule (insertIngressRoutingRules [] "s"
        ⟨"c", .ok false "10.0.0.1/32", false, [⟨"p", .ok false "10.0.0.2/32", true⟩]⟩).ing
      "s" ingressTable "c" "p").res = .ok ∧
    alookup "p" ((alookup "c" (fetchRuleTable
        (deleteRoutingRule (insertIngressRoutingRules [] "s"
          ⟨"c", .ok false "10.0.0.1/32", false, [⟨"p", .ok false "10.0.0.2/32", true⟩]⟩).ing
        "s" ingressTable "c" "p").ing "s" ingressTable)).getD ⟨true, []⟩).rulesMap ≠ none := by
  decide

/-- Claim C1, witness: the not-found case of the amended theorem at a
concrete input. -/
theorem c1_witness :
    (deleteRoutingRule [] "s" ingressTable "c" "p").res = .fail (.peerNotFound "c") ∧
    (deleteRoutingRule [] "s" ingressTable "c" "p").trace = [] :=
  (c1_delete_pairing [] "s" "c" "p").1 (by decide)

/-- Claim C3, amended: on a malformed address both `AddIngressRoutingRule`
and `InsertIngressRoutingRules` return the parse error, issue zero
actuator calls, and leave every client entry of every server's table
unchanged; the deferred `SaveRules` still runs, however, so the per-server
map ends up with the fetched (possibly fresh empty) table stored under the
server key — a previously absent server gains an empty entry. -/
theorem c3_parse_error (ing : ServerRules) (server : String) (ext : ExtClientInfo)
    (key : String) (p : PeerExtInfo)
    (h1 : parseCIDR ext.ExtPeerAddr = none) (h2 : parseCIDR p.PeerAddr = none) :
    ((insertIngressRoutingRules ing server ext).res = .fail (.parseFail ext.ExtPeerAddr.printed) ∧
     (insertIngressRoutingRules ing server ext).trace = [] ∧
     (insertIngressRoutingRules ing server ext).ing =
       saveRules ing server ingressTable (fetchRuleTable ing server ingressTable) ∧
     fetchRuleTable (insertIngressRoutingRules ing server ext).ing server ingressTable =
       fetchRuleTable ing server ingressTable) ∧
    ((addIngressRoutingRule ing server key p).res = .fail (.parseFail p.PeerAddr.printed) ∧
     (addIngressRoutingRule ing server key p).trace = [] ∧
     (addIngressRoutingRule ing server key p).ing =
       saveRules ing server ingressTable (fetchRuleTable ing server ingressTable) ∧
     fetchRuleTable (addIngressRoutingRule ing server key p).ing server ingressTable =
       fetchRuleTable ing server ingressTable) := by
  refine ⟨⟨?_, ?_, ?_, ?_⟩, ⟨?_, ?_, ?_, ?_⟩⟩ <;>
    simp [insertIngressRoutingRules, addIngressRoutingRule, h1, h2, fetch_save]

/-- Claim C3, counterexample to the claim as stated: calling
`InsertIngressRoutingRules` with an unparsable address on a manager that
has no entry for server "s" returns the parse error with zero actuator
calls, but the rule table is not exactly as before — a new (empty) entry
for "s" has been created by the deferred save. -/
theorem c3_counterexample :
    (insertIngressRoutingRules [] "s" ⟨"c", .bad "nonsense", false, []⟩).res =
      .fail (.parseFail "nonsense") ∧
    (insertIngressRoutingRules [] "s" ⟨"c", .bad "nonsense", false, []⟩).trace = [] ∧
    alookup "s" (insertIngressRoutingRules [] "s" ⟨"c", .bad "nonsense", false, []⟩).ing = some [] ∧
    alookup "s" ([] : ServerRules) = none := by
  decide

/-- Claim C3, witness: the amended theorem applied at concrete malformed
inputs. -/
theorem c3_witness :
    (insertIngressRoutingRules [] "s" (⟨"c", .bad "x", true, []⟩ : ExtClientInfo)).trace = [] ∧
    (addIngressRoutingRule [] "s" "k" (⟨"p", .bad "y", true⟩ : PeerExtInfo)).trace = [] := by
  have h := c3_parse_error [] "s" ⟨"c", .bad "x", true, []⟩ "k" ⟨"p", .bad "y", true⟩
    (by decide) (by decide)
  exact ⟨h.1.2.1, h.2.2.1⟩

/-- Claim C6, confirmed: `RemoveRoutingRules` for a client key with no
entry in the server's rule table returns the distinct peer-not-found
error, performs zero actuator calls, and never reports success. -/
theorem c6_remove_not_found (ing : ServerRules) (server peerKey : String)
    (h : alookup peerKey (fetchRuleTable ing server ingressTable) = none) :
    (removeRoutingRules ing server ingressTable peerKey).res = .fail (.peerNotFound peerKey) ∧
    (removeRoutingRules ing server ingressTable peerKey).trace = [] ∧
    (removeRoutingRules ing server ingressTable peerKey).res ≠ .ok := by
  refine ⟨?_, ?_, ?_⟩ <;> simp [removeRoutingRules, h]

/-- Claim C6, witness: the theorem at a concrete never-authorized client. -/
theorem c6_witness :
    (removeRoutingRules [] "s" ingressTable "c").res = .fail (.peerNotFound "c") ∧
    (removeRoutingRules [] "s" ingressTable "c").trace = [] ∧
    (removeRoutingRules [] "s" ingressTable "c").res ≠ .ok :=
  c6_remove_not_found [] "s" "c" (by decide)

/-- Claim C9, confirmed: `FlushAll` leaves the in-memory rule table
(`ingRules`) completely unchanged and issues exactly the jump-rule
removals followed by the clear-and-delete of the two custom chains for
both address families. -/
theorem c9_flushall_frame (ing : ServerRules) :
    (flushAll ing).1 = ing ∧
    (flushAll ing).2 = removeJumpRulesTrace ++ cleanupTrace defaultIpTable netmakerFilterChain ++
      cleanupTrace defaultNatTable netmakerNatChain :=
  ⟨rfl, rfl⟩

/-- Claim C10, confirmed: `AddIngressRoutingRule` succeeds only when the
client entry already exists; when it is absent and the address parses, the
rule-table write hits the nil map of a zero-value `rulesCfg` and the
operation panics instead of completing normally. -/
theorem c10_add_requires_entry (ing : ServerRules) (server key : String) (p : PeerExtInfo) :
    (alookup key (fetchRuleTable ing server ingressTable) = none →
      (parseCIDR p.PeerAddr).isSome = true →
      (addIngressRoutingRule ing server key p).res = .panicked) ∧
    ((addIngressRoutingRule ing server key p).res = .ok →
      alookup key (fetchRuleTable ing server ingressTable) ≠ none) := by
  rcases hp : parseCIDR p.PeerAddr with _ | b
  · constructor
    · intro _ hs
      simp [hp] at hs
    · intro hok
      simp [addIngressRoutingRule, hp] at hok
  · rcases hl : alookup key (fetchRuleTable ing server ingressTable) with _ | cfg
    · constructor
      · intro _ _
        simp [addIngressRoutingRule, hp, hl]
      · intro hok
        simp [addIngressRoutingRule, hp, hl] at hok
    · constructor
      · intro hnone _
        exact Option.noConfusion hnone
      · intro _
        simp

/-- Claim C10, witness: adding a rule for a client that was never
authorized panics. -/
theorem c10_witness :
    (addIngressRoutingRule [] "s" "c" (⟨"p", .ok false "10.0.0.2/32", true⟩ : PeerExtInfo)).res =
      .panicked :=
  (c10_add_requires_entry [] "s" "c" ⟨"p", .ok false "10.0.0.2/32", true⟩).1 (by decide) (by decide)

/-! Characterization of a successful `InsertIngressRoutingRules` call. -/

theorem insert_trace_eq (ing : ServerRules) (server : String) (ext : ExtClientInfo) (b : Bool)
    (h : parseCIDR ext.ExtPeerAddr = some b) :
    (insertIngressRoutingRules ing server ext).trace =
      insertPeersTrace (famOf b) ext ext.Peers ++
      (if ext.Masquerade then
        [ActCall.insertRule (famOf b) defaultNatTable netmakerNatChain 1 (natRuleSpecSrc ext),
         ActCall.insertRule (famOf b) defaultNatTable netmakerNatChain 1 (natRuleSpecDst ext)]
       else []) := by
  by_cases hm : ext.Masquerade <;> simp [insertIngressRoutingRules, h, hm]

theorem insert_ing_eq (ing : ServerRules) (server : String) (ext : ExtClientInfo) (b : Bool)
    (h : parseCIDR ext.ExtPeerAddr = some b) :
    (insertIngressRoutingRules ing server ext).ing =
      saveRules ing server ingressTable
        (ainsert ext.ExtPeerKey
          ⟨!b,
            if ext.Masquerade then
              ainsert ext.ExtPeerKey
                (((alookup ext.ExtPeerKey (insertPeersMap ext ext.Peers [])).getD []) ++
                  [⟨natRuleSpecSrc ext, defaultNatTable, netmakerNatChain⟩,
                   ⟨natRuleSpecDst ext, defaultNatTable, netmakerNatChain⟩])
                (insertPeersMap ext ext.Peers [])
            else insertPeersMap ext ext.Peers []⟩
          (fetchRuleTable ing server ingressTable)) := by
  by_cases hm : ext.Masquerade <;> simp [insertIngressRoutingRules, h, hm]

/-- Claim C2, amended: the family flag `isIpv4` recorded by
`InsertIngressRoutingRules` reflects the family of the client's own
address, and every actuator call of the operation goes through the client
instance of that same family.  (The per-rule invariant of the original
claim — that every rule stored under the flag embeds only addresses of
that family — does not hold; see the counterexample.) -/
theorem c2_family_flag (ing : ServerRules) (server : String) (ext : ExtClientInfo) (b : Bool)
    (h : parseCIDR ext.ExtPeerAddr = some b) :
    (∃ cfg, alookup ext.ExtPeerKey
        (fetchRuleTable (insertIngressRoutingRules ing server ext).ing server ingressTable) =
          some cfg ∧ cfg.isIpv4 = !b) ∧
    (∀ call ∈ (insertIngressRoutingRules ing server ext).trace, call.fam = famOf b) := by
  constructor
  · rw [insert_ing_eq ing server ext b h, fetch_save, alookup_ainsert_self]
    exact ⟨_, rfl, rfl⟩
  · intro call hc
    rw [insert_trace_eq ing server ext b h] at hc
    rcases List.mem_append.mp hc with hc | hc
    · exact insertPeersTrace_fam _ _ _ call hc
    · by_cases hm : ext.Masquerade
      · rw [if_pos hm] at hc
        rcases hc with _ | ⟨_, hc⟩
        · rfl
        · rcases hc with _ | ⟨_, hc⟩
          · rfl
          · cases hc
      · rw [if_neg hm] at hc
        cases hc

/-- Claim C2, counterexample to the claim as stated: a client with a v4
address ("10.0.0.1/32") and an allowed peer with a v6 address
("fd00::1/128") yields an entry flagged `isIpv4 = true` whose stored rule
embeds the v6 peer address, and the rule was applied through the v4
client instance — the recorded family does not match the family of every
address argument of every stored rule. -/
theorem c2_counterexample :
    parseCIDR (IPAddr.ok true "fd00::1/128") = some true ∧
    alookup "c" (fetchRuleTable (insertIngressRoutingRules [] "s"
        ⟨"c", .ok false "10.0.0.1/32", false, [⟨"p", .ok true "fd00::1/128", true⟩]⟩).ing
      "s" ingressTable) =
      some ⟨true, [("p", [⟨["-s", "10.0.0.1/32", "-d", "fd00::1/128", "-j", "ACCEPT"],
        defaultIpTable, netmakerFilterChain⟩])]⟩ ∧
    (insertIngressRoutingRules [] "s"
        ⟨"c", .ok false "10.0.0.1/32", false, [⟨"p", .ok true "fd00::1/128", true⟩]⟩).trace =
      [.insertRule .v4 defaultIpTable netmakerFilterChain 1
        ["-s", "10.0.0.1/32", "-d", "fd00::1/128", "-j", "ACCEPT"]] := by
  decide

/-- Claim C2, witness: the amended theorem at a concrete all-v4 input. -/
theorem c2_witness :
    (∃ cfg, alookup "c"
        (fetchRuleTable (insertIngressRoutingRules [] "s"
          (⟨"c", .ok false "10.0.0.1/32", false,
            [⟨"p", .ok false "10.0.0.2/32", true⟩]⟩ : ExtClientInfo)).ing "s" ingressTable) =
          some cfg ∧ cfg.isIpv4 = !false) ∧
    (∀ call ∈ (insertIngressRoutingRules [] "s"
        (⟨"c", .ok false "10.0.0.1/32", false,
          [⟨"p", .ok false "10.0.0.2/32", true⟩]⟩ : ExtClientInfo)).trace,
      call.fam = famOf false) :=
  c2_family_flag [] "s" ⟨"c", .ok false "10.0.0.1/32", false,
    [⟨"p", .ok false "10.0.0.2/32", true⟩]⟩ false (by decide)

/-- Claim C8, amended: a peer with `allow = false` contributes no insert
call (the trace consists exactly of the inserts of the allowed peers plus,
with masquerade, the two nat inserts) and no rule group is recorded under
its key, provided no other entry of the list shares its key with
`allow = true` and, when masquerade is set, its key differs from the
client's own key (under which the nat group is stored). -/
theorem c8_deny_skipped (ing : ServerRules) (server : String) (ext : ExtClientInfo)
    (p : PeerExtInfo) (b : Bool)
    (h : parseCIDR ext.ExtPeerAddr = some b)
    (hp : p ∈ ext.Peers) (hallow : p.Allow = false)
    (hnk : ∀ q ∈ ext.Peers, q.PeerKey = p.PeerKey → q.Allow = false)
    (hmk : ext.Masquerade = true → p.PeerKey ≠ ext.ExtPeerKey) :
    (∃ cfg, alookup ext.ExtPeerKey
        (fetchRuleTable (insertIngressRoutingRules ing server ext).ing server ingressTable) =
          some cfg ∧ alookup p.PeerKey cfg.rulesMap = none) ∧
    (insertIngressRoutingRules ing server ext).trace =
      ((ext.Peers.filter (fun q => q.Allow)).map
        (fun q => ActCall.insertRule (famOf b) defaultIpTable netmakerFilterChain 1
          (filterRuleSpec ext q))) ++
      (if ext.Masquerade then
        [ActCall.insertRule (famOf b) defaultNatTable netmakerNatChain 1 (natRuleSpecSrc ext),
         ActCall.insertRule (famOf b) defaultNatTable netmakerNatChain 1 (natRuleSpecDst ext)]
       else []) ∧
    p ∉ ext.Peers.filter (fun q => q.Allow) := by
  have hskip : alookup p.PeerKey (insertPeersMap ext ext.Peers []) = none :=
    insertPeersMap_skip ext p.PeerKey ext.Peers [] (fun q hq hqk => hnk q hq hqk)
  refine ⟨?_, ?_, ?_⟩
  · rw [insert_ing_eq ing server ext b h, fetch_save, alookup_ainsert_self]
    refine ⟨_, rfl, ?_⟩
    by_cases hm : ext.Masquerade
    · rw [if_pos hm]
      rw [alookup_ainsert_ne _ _ _ _ (hmk hm)]
      exact hskip
    · rw [if_neg hm]
      exact hskip
  · rw [insert_trace_eq ing server ext b h, insertPeersTrace_eq]
  · simp [List.mem_filter, hallow]

/-- Claim C8, counterexample to the claim as stated: with masquerade set
and a deny peer whose key equals the client's own key, the client's entry
does contain a rule group (the nat masquerade group) under that peer's
key. -/
theorem c8_counterexample :
    (⟨"c", .ok false "10.0.0.2/32", false⟩ : PeerExtInfo) ∈
      (⟨"c", .ok false "10.0.0.1/32", true, [⟨"c", .ok false "10.0.0.2/32", false⟩]⟩ :
        ExtClientInfo).Peers ∧
    (⟨"c", .ok false "10.0.0.2/32", false⟩ : PeerExtInfo).Allow = false ∧
    alookup "c" ((alookup "c" (fetchRuleTable (insertIngressRoutingRules [] "s"
        ⟨"c", .ok false "10.0.0.1/32", true, [⟨"c", .ok false "10.0.0.2/32", false⟩]⟩).ing
      "s" ingressTable)).getD ⟨true, []⟩).rulesMap ≠ none := by
  decide

/-- Claim C8, witness: the amended theorem at a concrete input with one
deny peer. -/
theorem c8_witness :
    (∃ cfg, alookup "c"
        (fetchRuleTable (insertIngressRoutingRules [] "s"
          (⟨"c", .ok false "10.0.0.1/32", true,
            [⟨"p", .ok false "10.0.0.2/32", false⟩]⟩ : ExtClientInfo)).ing "s" ingressTable) =
          some cfg ∧ alookup "p" cfg.rulesMap = none) ∧
    (insertIngressRoutingRules [] "s"
        (⟨"c", .ok false "10.0.0.1/32", true,
          [⟨"p", .ok false "10.0.0.2/32", false⟩]⟩ : ExtClientInfo)).trace =
      [ActCall.insertRule (famOf false) defaultNatTable netmakerNatChain 1
        (natRuleSpecSrc ⟨"c", .ok false "10.0.0.1/32", true, [⟨"p", .ok false "10.0.0.2/32", false⟩]⟩),
       ActCall.insertRule (famOf false) defaultNatTable netmakerNatChain 1
        (natRuleSpecDst ⟨"c", .ok false "10.0.0.1/32", true, [⟨"p", .ok false "10.0.0.2/32", false⟩]⟩)] ∧
    (⟨"p", .ok false "10.0.0.2/32", false⟩ : PeerExtInfo) ∉
      (⟨"c", .ok false "10.0.0.1/32", true,
        [⟨"p", .ok false "10.0.0.2/32", false⟩]⟩ : ExtClientInfo).Peers.filter
        (fun q => q.Allow) := by
  have h := c8_deny_skipped [] "s"
    ⟨"c", .ok false "10.0.0.1/32", true, [⟨"p", .ok false "10.0.0.2/32", false⟩]⟩
    ⟨"p", .ok false "10.0.0.2/32", false⟩ false
    (by decide) (by decide) (by decide) (by decide) (by decide)
  exact ⟨h.1, by rw [h.2.1]; decide, h.2.2⟩

/-- Claim C5, amended: with every peer allowed, masquerade set, the
client's key distinct from every peer key, and — this is the amendment —
the peer keys pairwise distinct, removing the client session after the
bulk insert succeeds, leaves no entry for the client, and issues exactly
`|P| + 2` actuator removal calls (one per allow rule plus the two nat
masquerade rules), all of them `DeleteIfExists` calls. -/
theorem c5_remove_client_session (ing : ServerRules) (server : String) (ext : ExtClientInfo)
    (b : Bool)
    (h : parseCIDR ext.ExtPeerAddr = some b)
    (hallow : ∀ p ∈ ext.Peers, p.Allow = true)
    (hmasq : ext.Masquerade = true)
    (hnodup : (ext.Peers.map (fun p => p.PeerKey)).Nodup)
    (hck : ext.ExtPeerKey ∉ ext.Peers.map (fun p => p.PeerKey)) :
    (removeRoutingRules (insertIngressRoutingRules ing server ext).ing
        server ingressTable ext.ExtPeerKey).res = .ok ∧
    alookup ext.ExtPeerKey
      (fetchRuleTable (removeRoutingRules (insertIngressRoutingRules ing server ext).ing
        server ingressTable ext.ExtPeerKey).ing server ingressTable) = none ∧
    (removeRoutingRules (insertIngressRoutingRules ing server ext).ing
        server ingressTable ext.ExtPeerKey).trace.length = ext.Peers.length + 2 ∧
    ∀ call ∈ (removeRoutingRules (insertIngressRoutingRules ing server ext).ing
        server ingressTable ext.ExtPeerKey).trace,
      ∃ f t c a, call = ActCall.deleteIfExists f t c a := by
  have hfilter : ext.Peers.filter (fun p => p.Allow) = ext.Peers :=
    List.filter_eq_self.mpr (fun a ha => hallow a ha)
  have hrm0 : insertPeersMap ext ext.Peers [] =
      ext.Peers.map (fun p =>
        (p.PeerKey, [⟨filterRuleSpec ext p, defaultIpTable, netmakerFilterChain⟩])) := by
    rw [insertPeersMap_eq ext ext.Peers [] (by rw [hfilter]; exact hnodup)
      (fun p _ _ => rfl)]
    rw [hfilter]
    rfl
  have hnck : ∀ p ∈ ext.Peers, p.PeerKey ≠ ext.ExtPeerKey := by
    intro p hp heq
    exact hck (heq ▸ List.mem_map_of_mem _ hp)
  have hlook : alookup ext.ExtPeerKey (insertPeersMap ext ext.Peers []) = none := by
    rw [hrm0]
    exact alookup_pairs_none _ _ _ hnck
  have hing : (insertIngressRoutingRules ing server ext).ing =
      saveRules ing server ingressTable
        (ainsert ext.ExtPeerKey
          ⟨!b, insertPeersMap ext ext.Peers [] ++
            [(ext.ExtPeerKey,
              [⟨natRuleSpecSrc ext, defaultNatTable, netmakerNatChain⟩,
               ⟨natRuleSpecDst ext, defaultNatTable, netmakerNatChain⟩])]⟩
          (fetchRuleTable ing server ingressTable)) := by
    rw [insert_ing_eq ing server ext b h, if_pos hmasq, hlook,
      ainsert_of_alookup_none _ _ _ hlook]
    rfl
  have hfetch : fetchRuleTable (insertIngressRoutingRules ing server ext).ing
      server ingressTable =
      ainsert ext.ExtPeerKey
        ⟨!b, insertPeersMap ext ext.Peers [] ++
          [(ext.ExtPeerKey,
            [⟨natRuleSpecSrc ext, defaultNatTable, netmakerNatChain⟩,
             ⟨natRuleSpecDst ext, defaultNatTable, netmakerNatChain⟩])]⟩
        (fetchRuleTable ing server ingressTable) := by
    rw [hing, fetch_save]
  refine ⟨?_, ?_, ?_, ?_⟩
  · simp [removeRoutingRules, hfetch]
  · simp [removeRoutingRules, hfetch, fetch_save]
  · simp only [removeRoutingRules, hfetch, alookup_ainsert_self]
    simp only [List.length_flatten, List.map_map, List.map_append, hrm0,
      List.sum_append]
    simp [Function.comp_def]
  · intro call hc
    simp only [removeRoutingRules, hfetch, alookup_ainsert_self] at hc
    simp only [List.mem_flatten, List.mem_map] at hc
    obtain ⟨l, ⟨e, _, rfl⟩, hcl⟩ := hc
    obtain ⟨r, _, rfl⟩ := List.mem_map.mp hcl
    exact ⟨_, _, _, _, rfl⟩

/-- Claim C5, counterexample to the claim as stated: with a duplicated
peer key ("p" twice, both allowed, masquerade set, client key "c"
distinct from "p"), removal issues 3 actuator calls, not `|P| + 2 = 4`:
the second entry for "p" overwrote the first in the rules map. -/
theorem c5_counterexample :
    (removeRoutingRules (insertIngressRoutingRules [] "s"
        ⟨"c", .ok false "10.0.0.1/32", true,
          [⟨"p", .ok false "10.0.0.2/32", true⟩,
           ⟨"p", .ok false "10.0.0.3/32", true⟩]⟩).ing "s" ingressTable "c").trace.length = 3 ∧
    ¬ ((removeRoutingRules (insertIngressRoutingRules [] "s"
        ⟨"c", .ok false "10.0.0.1/32", true,
          [⟨"p", .ok false "10.0.0.2/32", true⟩,
           ⟨"p", .ok false "10.0.0.3/32", true⟩]⟩).ing "s" ingressTable "c").trace.length =
      (⟨"c", .ok false "10.0.0.1/32", true,
        [⟨"p", .ok false "10.0.0.2/32", true⟩,
         ⟨"p", .ok false "10.0.0.3/32", true⟩]⟩ : ExtClientInfo).Peers.length + 2) := by
  decide

/-- Claim C5, witness: the amended theorem at a concrete two-peer input
with distinct keys. -/
theorem c5_witness :
    (removeRoutingRules (insertIngressRoutingRules [] "s"
        (⟨"c", .ok false "10.0.0.1/32", true,
          [⟨"p1", .ok false "10.0.0.2/32", true⟩,
           ⟨"p2", .ok false "10.0.0.3/32", true⟩]⟩ : ExtClientInfo)).ing
      "s" ingressTable "c").res = .ok ∧
    alookup "c" (fetchRuleTable (removeRoutingRules (insertIngressRoutingRules [] "s"
        (⟨"c", .ok false "10.0.0.1/32", true,
          [⟨"p1", .ok false "10.0.0.2/32", true⟩,
           ⟨"p2", .ok false "10.0.0.3/32", true⟩]⟩ : ExtClientInfo)).ing
      "s" ingressTable "c").ing "s" ingressTable) = none ∧
    (removeRoutingRules (insertIngressRoutingRules [] "s"
        (⟨"c", .ok false "10.0.0.1/32", true,
          [⟨"p1", .ok false "10.0.0.2/32", true⟩,
           ⟨"p2", .ok false "10.0.0.3/32", true⟩]⟩ : ExtClientInfo)).ing
      "s" ingressTable "c").trace.length = 2 + 2 := by
  have h := c5_remove_client_session [] "s"
    ⟨"c", .ok false "10.0.0.1/32", true,
      [⟨"p1", .ok false "10.0.0.2/32", true⟩, ⟨"p2", .ok false "10.0.0.3/32", true⟩]⟩ false
    (by decide) (by decide) (by decide) (by decide) (by decide)
  exact ⟨h.1, h.2.1, h.2.2.1⟩

/-! Firewall semantics of traces consisting only of position-1 inserts. -/

theorem applyTrace_nil (fw : Firewall) : applyTrace fw [] = fw := rfl

theorem applyTrace_cons (fw : Firewall) (c : ActCall) (t : List ActCall) :
    applyTrace fw (c :: t) = applyTrace (applyCall fw c) t := rfl

theorem applyCall_ins1_chains (fw : Firewall) (c : ActCall) (h : c.ins1 = true) :
    (applyCall fw c).chains = fw.chains := by
  cases c with
  | insertRule f t ch pos a =>
      by_cases hco : chainOk fw.chains (f, t, ch) <;> simp [applyCall, setRules, hco]
  | appendRule f t ch a => exact absurd h (by simp [ActCall.ins1])
  | deleteIfExists f t ch a => exact absurd h (by simp [ActCall.ins1])
  | listChains f t => exact absurd h (by simp [ActCall.ins1])
  | newChain f t ch => exact absurd h (by simp [ActCall.ins1])
  | clearAndDeleteChain f t ch => exact absurd h (by simp [ActCall.ins1])

theorem applyCall_ins1_rules (fw : Firewall) (c : ActCall) (h : c.ins1 = true) (k : CKey) :
    (applyCall fw c).rules k = insContrib fw.chains k c ++ fw.rules k := by
  cases c with
  | insertRule f t ch pos a =>
      have hpos : pos = 1 := by simpa [ActCall.ins1] using h
      subst hpos
      by_cases hco : chainOk fw.chains (f, t, ch)
      · by_cases hk : (f, t, ch) = k
        · subst hk
          simp [applyCall, setRules, insContrib, hco, listInsertAt]
        · simp [applyCall, setRules, insContrib, hco, hk, Ne.symm hk]
      · simp [applyCall, insContrib, hco]
  | appendRule f t ch a => exact absurd h (by simp [ActCall.ins1])
  | deleteIfExists f t ch a => exact absurd h (by simp [ActCall.ins1])
  | listChains f t => exact absurd h (by simp [ActCall.ins1])
  | newChain f t ch => exact absurd h (by simp [ActCall.ins1])
  | clearAndDeleteChain f t ch => exact absurd h (by simp [ActCall.ins1])

theorem applyTrace_ins1_chains (t : List ActCall) (fw : Firewall)
    (h : ∀ c ∈ t, c.ins1 = true) : (applyTrace fw t).chains = fw.chains := by
  induction t generalizing fw with
  | nil => rfl
  | cons c t ih =>
      rw [applyTrace_cons, ih (applyCall fw c) (fun x hx => h x (List.mem_cons_of_mem _ hx))]
      exact applyCall_ins1_chains fw c (h c (List.mem_cons_self _ _))

theorem applyTrace_ins1_rules (t : List ActCall) (fw : Firewall)
    (h : ∀ c ∈ t, c.ins1 = true) (k : CKey) :
    (applyTrace fw t).rules k = insAcc fw.chains k t ++ fw.rules k := by
  induction t generalizing fw with
  | nil => simp [applyTrace_nil, insAcc]
  | cons c t ih =>
      rw [applyTrace_cons, ih (applyCall fw c) (fun x hx => h x (List.mem_cons_of_mem _ hx)),
        applyCall_ins1_chains fw c (h c (List.mem_cons_self _ _)),
        applyCall_ins1_rules fw c (h c (List.mem_cons_self _ _)) k]
      simp [insAcc, List.append_assoc]

theorem applyTrace_ins1_twice (t : List ActCall) (fw : Firewall)
    (h : ∀ c ∈ t, c.ins1 = true) (k : CKey) (a : Args) :
    a ∈ (applyTrace (applyTrace fw t) t).rules k ↔ a ∈ (applyTrace fw t).rules k := by
  rw [applyTrace_ins1_rules t (applyTrace fw t) h k, applyTrace_ins1_rules t fw h k,
    applyTrace_ins1_chains t fw h]
  simp only [List.mem_append]
  tauto

theorem insert_trace_ins1 (ing : ServerRules) (server : String) (ext : ExtClientInfo)
    (b : Bool) (h : parseCIDR ext.ExtPeerAddr = some b) :
    ∀ c ∈ (insertIngressRoutingRules ing server ext).trace, c.ins1 = true := by
  rw [insert_trace_eq ing server ext b h]
  intro c hc
  rcases List.mem_append.mp hc with hc | hc
  · exact insertPeersTrace_ins1 _ _ _ c hc
  · by_cases hm : ext.Masquerade
    · rw [if_pos hm] at hc
      rcases hc with _ | ⟨_, hc⟩
      · rfl
      · rcases hc with _ | ⟨_, hc⟩
        · rfl
        · cases hc
    · rw [if_neg hm] at hc
      cases hc

/-- Claim C4, amended: re-running `InsertIngressRoutingRules` with the same
arguments leaves the client's rule-table entry (indeed the whole
`ingRules` state) identical to the state after a single call, issues the
identical actuator trace, and the firewall then contains the same set of
rules (membership is unchanged) — but the re-applied rules are inserted
again, so duplicate entries do accumulate in the chains (see the
counterexample); only the set, not the multiset, is preserved. -/
theorem c4_reapply (ing : ServerRules) (server : String) (ext : ExtClientInfo)
    (b : Bool) (fw : Firewall) (h : parseCIDR ext.ExtPeerAddr = some b) :
    (insertIngressRoutingRules (insertIngressRoutingRules ing server ext).ing server ext).ing =
      (insertIngressRoutingRules ing server ext).ing ∧
    (insertIngressRoutingRules (insertIngressRoutingRules ing server ext).ing server ext).trace =
      (insertIngressRoutingRules ing server ext).trace ∧
    (∀ (k : CKey) (a : Args),
      a ∈ (applyTrace (applyTrace fw (insertIngressRoutingRules ing server ext).trace)
            (insertIngressRoutingRules (insertIngressRoutingRules ing server ext).ing
              server ext).trace).rules k ↔
        a ∈ (applyTrace fw (insertIngressRoutingRules ing server ext).trace).rules k) := by
  have htr : (insertIngressRoutingRules (insertIngressRoutingRules ing server ext).ing
      server ext).trace = (insertIngressRoutingRules ing server ext).trace :=
    (insert_trace_eq _ server ext b h).trans (insert_trace_eq ing server ext b h).symm
  refine ⟨?_, htr, ?_⟩
  · rw [insert_ing_eq _ server ext b h, insert_ing_eq ing server ext b h, fetch_save,
      ainsert_ainsert_same]
    simp [saveRules, ainsert_ainsert_same]
  · intro k a
    rw [htr]
    exact applyTrace_ins1_twice _ fw (insert_trace_ins1 ing server ext b h) k a

/-- Claim C4, counterexample to the claim as stated: applying the same
single-peer rule set twice leaves the filter chain containing the allow
rule twice (count 2), while a single call leaves it once — re-application
does duplicate firewall entries. -/
theorem c4_counterexample :
    ((applyTrace (applyTrace
        (⟨[(Fam.v4, defaultIpTable, netmakerFilterChain), (Fam.v4, defaultNatTable, netmakerNatChain)],
          fun _ => []⟩ : Firewall)
        (insertIngressRoutingRules [] "s"
          ⟨"c", .ok false "10.0.0.1/32", false, [⟨"p", .ok false "10.0.0.2/32", true⟩]⟩).trace)
        (insertIngressRoutingRules (insertIngressRoutingRules [] "s"
          ⟨"c", .ok false "10.0.0.1/32", false, [⟨"p", .ok false "10.0.0.2/32", true⟩]⟩).ing "s"
          ⟨"c", .ok false "10.0.0.1/32", false, [⟨"p", .ok false "10.0.0.2/32", true⟩]⟩).trace).rules
        (Fam.v4, defaultIpTable, netmakerFilterChain)).count
      ["-s", "10.0.0.1/32", "-d", "10.0.0.2/32", "-j", "ACCEPT"] = 2 ∧
    ((applyTrace
        (⟨[(Fam.v4, defaultIpTable, netmakerFilterChain), (Fam.v4, defaultNatTable, netmakerNatChain)],
          fun _ => []⟩ : Firewall)
        (insertIngressRoutingRules [] "s"
          ⟨"c", .ok false "10.0.0.1/32", false, [⟨"p", .ok false "10.0.0.2/32", true⟩]⟩).trace).rules
        (Fam.v4, defaultIpTable, netmakerFilterChain)).count
      ["-s", "10.0.0.1/32", "-d", "10.0.0.2/32", "-j", "ACCEPT"] = 1 := by
  decide

/-! Pointwise semantics lemmas for the firewall model, used for the chain
bootstrap (`CreateChains`) idempotence argument. -/

theorem chains_delete (fw : Firewall) (f : Fam) (t ch : String) (a : Args) :
    (applyCall fw (.deleteIfExists f t ch a)).chains = fw.chains := by
  by_cases h : chainOk fw.chains (f, t, ch) <;> simp [applyCall, setRules, h]

theorem chains_new (fw : Firewall) (f : Fam) (t ch : String) :
    (applyCall fw (.newChain f t ch)).chains = fw.chains ++ [(f, t, ch)] := rfl

theorem chains_clear (fw : Firewall) (f : Fam) (t ch : String) :
    (applyCall fw (.clearAndDeleteChain f t ch)).chains =
      fw.chains.filter (fun c => decide (c ≠ ((f, t, ch) : CKey))) := by
  by_cases h : ((f, t, ch) : CKey) ∈ fw.chains
  · simp [applyCall, h]
  · simp only [applyCall, decide_eq_true_eq]
    rw [if_neg (by simpa using h)]
    symm
    apply List.filter_eq_self.mpr
    intro a ha
    apply decide_eq_true
    intro he
    exact h (he ▸ ha)

theorem applyCall_chains_keep (fw : Firewall) (c : ActCall) (h : callKeepsChains c = true) :
    (applyCall fw c).chains = fw.chains := by
  cases c with
  | insertRule f t ch pos a =>
      by_cases hco : chainOk fw.chains (f, t, ch) <;> simp [applyCall, setRules, hco]
  | appendRule f t ch a =>
      by_cases hco : chainOk fw.chains (f, t, ch) <;> simp [applyCall, setRules, hco]
  | deleteIfExists f t ch a =>
      by_cases hco : chainOk fw.chains (f, t, ch) <;> simp [applyCall, setRules, hco]
  | listChains f t => rfl
  | newChain f t ch => exact absurd h (by simp [callKeepsChains])
  | clearAndDeleteChain f t ch => exact absurd h (by simp [callKeepsChains])

theorem applyTrace_chains_keep (t : List ActCall) (fw : Firewall)
    (h : ∀ c ∈ t, callKeepsChains c = true) : (applyTrace fw t).chains = fw.chains := by
  induction t generalizing fw with
  | nil => rfl
  | cons c t ih =>
      rw [applyTrace_cons, ih (applyCall fw c) (fun x hx => h x (List.mem_cons_of_mem _ hx))]
      exact applyCall_chains_keep fw c (h c (List.mem_cons_self _ _))

theorem applyCall_rules_untouched (fw : Firewall) (c : ActCall) (k : CKey)
    (h : callTouches c k = false) : (applyCall fw c).rules k = fw.rules k := by
  cases c with
  | insertRule f t ch pos a =>
      have hne : k ≠ ((f, t, ch) : CKey) :=
        fun he => of_decide_eq_false h he.symm
      by_cases hco : chainOk fw.chains (f, t, ch) <;>
        simp [applyCall, setRules, hco, hne]
  | appendRule f t ch a =>
      have hne : k ≠ ((f, t, ch) : CKey) :=
        fun he => of_decide_eq_false h he.symm
      by_cases hco : chainOk fw.chains (f, t, ch) <;>
        simp [applyCall, setRules, hco, hne]
  | deleteIfExists f t ch a =>
      have hne : k ≠ ((f, t, ch) : CKey) :=
        fun he => of_decide_eq_false h he.symm
      by_cases hco : chainOk fw.chains (f, t, ch) <;>
        simp [applyCall, setRules, hco, hne]
  | listChains f t => rfl
  | newChain f t ch =>
      have hne : k ≠ ((f, t, ch) : CKey) :=
        fun he => of_decide_eq_false h he.symm
      simp [applyCall, setRules, hne]
  | clearAndDeleteChain f t ch =>
      have hne : k ≠ ((f, t, ch) : CKey) :=
        fun he => of_decide_eq_false h he.symm
      by_cases hm : ((f, t, ch) : CKey) ∈ fw.chains <;>
        simp [applyCall, setRules, hm, hne]

theorem applyTrace_rules_untouched (t : List ActCall) (fw : Firewall) (k : CKey)
    (h : ∀ c ∈ t, callTouches c k = false) : (applyTrace fw t).rules k = fw.rules k := by
  induction t generalizing fw with
  | nil => rfl
  | cons c t ih =>
      rw [applyTrace_cons, ih (applyCall fw c) (fun x hx => h x (List.mem_cons_of_mem _ hx))]
      exact applyCall_rules_untouched fw c k (h c (List.mem_cons_self _ _))

theorem rules_delete_builtin (fw : Firewall) (f : Fam) (t ch : String) (a : Args)
    (h : builtinChain t ch = true) :
    (applyCall fw (.deleteIfExists f t ch a)).rules (f, t, ch) =
      (fw.rules (f, t, ch)).erase a := by
  have hco : chainOk fw.chains (f, t, ch) = true := by simp [chainOk, h]
  simp [applyCall, hco, setRules]

theorem rules_append_self (fw : Firewall) (f : Fam) (t ch : String) (a : Args)
    (h : chainOk fw.chains (f, t, ch) = true) :
    (applyCall fw (.appendRule f t ch a)).rules (f, t, ch) =
      fw.rules (f, t, ch) ++ [a] := by
  simp [applyCall, h, setRules]

theorem ccs_chains_new (fw : Firewall) (f : Fam) (t ch : String)
    (h : chainOk fw.chains (f, t, ch) = false) :
    (createChainStep fw f t ch).chains = fw.chains ++ [(f, t, ch)] := by
  simp [createChainStep, h, applyCall]

theorem ccs_rules_new (fw : Firewall) (f : Fam) (t ch : String)
    (h : chainOk fw.chains (f, t, ch) = false) :
    (createChainStep fw f t ch).rules (f, t, ch) = [] := by
  simp [createChainStep, h, applyCall, setRules]

theorem ccs_rules_ne (fw : Firewall) (f : Fam) (t ch : String) (k : CKey)
    (h : k ≠ ((f, t, ch) : CKey)) :
    (createChainStep fw f t ch).rules k = fw.rules k := by
  by_cases hco : chainOk fw.chains (f, t, ch) <;>
    simp [createChainStep, hco, applyCall, setRules, h]

theorem removeJumpRulesTrace_eq :
    removeJumpRulesTrace =
      [.deleteIfExists .v4 defaultIpTable iptableFWDChain fwdJumpSpec,
       .deleteIfExists .v6 defaultIpTable iptableFWDChain fwdJumpSpec,
       .deleteIfExists .v4 defaultIpTable netmakerFilterChain dropJumpSpec,
       .deleteIfExists .v6 defaultIpTable netmakerFilterChain dropJumpSpec,
       .deleteIfExists .v4 defaultIpTable netmakerFilterChain retJumpSpec,
       .deleteIfExists .v6 defaultIpTable netmakerFilterChain retJumpSpec,
       .deleteIfExists .v4 defaultNatTable nattablePRTChain natJumpSpec,
       .deleteIfExists .v6 defaultNatTable nattablePRTChain natJumpSpec,
       .deleteIfExists .v4 defaultNatTable netmakerNatChain natRetSpec,
       .deleteIfExists .v6 defaultNatTable netmakerNatChain natRetSpec] := rfl

theorem addJumpRulesTrace_eq :
    addJumpRulesTrace =
      [.appendRule .v4 defaultIpTable iptableFWDChain fwdJumpSpec,
       .appendRule .v6 defaultIpTable iptableFWDChain fwdJumpSpec,
       .appendRule .v4 defaultIpTable netmakerFilterChain dropJumpSpec,
       .appendRule .v6 defaultIpTable netmakerFilterChain dropJumpSpec,
       .appendRule .v4 defaultIpTable netmakerFilterChain retJumpSpec,
       .appendRule .v6 defaultIpTable netmakerFilterChain retJumpSpec,
       .appendRule .v4 defaultNatTable nattablePRTChain natJumpSpec,
       .appendRule .v6 defaultNatTable nattablePRTChain natJumpSpec,
       .appendRule .v4 defaultNatTable netmakerNatChain natRetSpec,
       .appendRule .v6 defaultNatTable netmakerNatChain natRetSpec] := rfl

theorem createChainsFw_eq_stages (fw : Firewall) :
    createChainsFw fw = applyTrace (ccF7 fw) addJumpRulesTrace := rfl

theorem ccF1_chains (fw : Firewall) : (ccF1 fw).chains = fw.chains :=
  applyTrace_chains_keep _ fw (by decide)

theorem ccF3_chains (fw : Firewall) :
    (ccF3 fw).chains =
      ((((fw.chains.filter (fun c => decide (c ≠ kNMF .v4))).filter
        (fun c => decide (c ≠ kNMF .v6))).filter
        (fun c => decide (c ≠ kNMN .v4))).filter
        (fun c => decide (c ≠ kNMN .v6))) := by
  rw [ccF3]
  simp only [cleanupTrace, applyTrace_cons, applyTrace_nil, chains_clear, ccF1_chains,
    kNMF, kNMN]

theorem notmem_filter_ne_self (l : List CKey) (k : CKey) :
    k ∉ l.filter (fun c => decide (c ≠ k)) := by
  simp [List.mem_filter]

theorem ccF3_nmf_v4_notmem (fw : Firewall) : kNMF .v4 ∉ (ccF3 fw).chains := by
  rw [ccF3_chains]
  intro hmem
  exact notmem_filter_ne_self _ _
    (List.mem_of_mem_filter (List.mem_of_mem_filter (List.mem_of_mem_filter hmem)))

theorem ccF3_nmf_v6_notmem (fw : Firewall) : kNMF .v6 ∉ (ccF3 fw).chains := by
  rw [ccF3_chains]
  intro hmem
  exact notmem_filter_ne_self _ _
    (List.mem_of_mem_filter (List.mem_of_mem_filter hmem))

theorem ccF3_nmn_v4_notmem (fw : Firewall) : kNMN .v4 ∉ (ccF3 fw).chains := by
  rw [ccF3_chains]
  intro hmem
  exact notmem_filter_ne_self _ _ (List.mem_of_mem_filter hmem)

theorem ccF3_nmn_v6_notmem (fw : Firewall) : kNMN .v6 ∉ (ccF3 fw).chains := by
  rw [ccF3_chains]
  intro hmem
  exact notmem_filter_ne_self _ _ hmem

theorem chainOk_false_of (cs : List CKey) (k : CKey)
    (hb : builtinChain k.2.1 k.2.2 = false) (hm : k ∉ cs) : chainOk cs k = false := by
  simp [chainOk, hb, hm]

theorem ccF7_guard_nmf_v4 (fw : Firewall) :
    chainOk (ccF3 fw).chains (kNMF .v4) = false :=
  chainOk_false_of _ _ (by decide) (ccF3_nmf_v4_notmem fw)

theorem ccF7_guard_nmn_v4 (fw : Firewall) :
    chainOk ((createChainStep (ccF3 fw) .v4 defaultIpTable netmakerFilterChain).chains)
      (kNMN .v4) = false := by
  rw [ccs_chains_new (ccF3 fw) .v4 defaultIpTable netmakerFilterChain (ccF7_guard_nmf_v4 fw)]
  refine chainOk_false_of _ _ (by decide) ?_
  intro hmem
  rcases List.mem_append.mp hmem with hmem | hmem
  · exact ccF3_nmn_v4_notmem fw hmem
  · revert hmem
    decide

theorem ccF7_guard_nmf_v6 (fw : Firewall) :
    chainOk ((createChainStep (createChainStep (ccF3 fw) .v4 defaultIpTable
      netmakerFilterChain) .v4 defaultNatTable netmakerNatChain).chains) (kNMF .v6) = false := by
  rw [ccs_chains_new _ .v4 defaultNatTable netmakerNatChain (ccF7_guard_nmn_v4 fw),
    ccs_chains_new (ccF3 fw) .v4 defaultIpTable netmakerFilterChain (ccF7_guard_nmf_v4 fw)]
  refine chainOk_false_of _ _ (by decide) ?_
  intro hmem
  rcases List.mem_append.mp hmem with hmem | hmem
  · rcases List.mem_append.mp hmem with hmem | hmem
    · exact ccF3_nmf_v6_notmem fw hmem
    · revert hmem
      decide
  · revert hmem
    decide

theorem ccF7_guard_nmn_v6 (fw : Firewall) :
    chainOk ((createChainStep (createChainStep (createChainStep (ccF3 fw) .v4
      defaultIpTable netmakerFilterChain) .v4 defaultNatTable netmakerNatChain) .v6
      defaultIpTable netmakerFilterChain).chains) (kNMN .v6) = false := by
  rw [ccs_chains_new _ .v6 defaultIpTable netmakerFilterChain (ccF7_guard_nmf_v6 fw),
    ccs_chains_new _ .v4 defaultNatTable netmakerNatChain (ccF7_guard_nmn_v4 fw),
    ccs_chains_new (ccF3 fw) .v4 defaultIpTable netmakerFilterChain (ccF7_guard_nmf_v4 fw)]
  refine chainOk_false_of _ _ (by decide) ?_
  intro hmem
  rcases List.mem_append.mp hmem with hmem | hmem
  · rcases List.mem_append.mp hmem with hmem | hmem
    · rcases List.mem_append.mp hmem with hmem | hmem
      · exact ccF3_nmn_v6_notmem fw hmem
      · revert hmem
        decide
    · revert hmem
      decide
  · revert hmem
    decide

theorem ccF7_chains (fw : Firewall) :
    (ccF7 fw).chains = (ccF3 fw).chains ++ [kNMF .v4, kNMN .v4, kNMF .v6, kNMN .v6] := by
  rw [ccF7]
  rw [ccs_chains_new _ .v6 defaultNatTable netmakerNatChain (ccF7_guard_nmn_v6 fw),
    ccs_chains_new _ .v6 defaultIpTable netmakerFilterChain (ccF7_guard_nmf_v6 fw),
    ccs_chains_new _ .v4 defaultNatTable netmakerNatChain (ccF7_guard_nmn_v4 fw),
    ccs_chains_new (ccF3 fw) .v4 defaultIpTable netmakerFilterChain (ccF7_guard_nmf_v4 fw)]
  simp [kNMF, kNMN]

theorem chainOk_builtin (cs : List CKey) (k : CKey)
    (h : builtinChain k.2.1 k.2.2 = true) : chainOk cs k = true := by
  simp [chainOk, h]

theorem pre_rules_fwd (fw : Firewall) (f : Fam) :
    (ccF7 fw).rules ((f, defaultIpTable, iptableFWDChain) : CKey) =
      (fw.rules ((f, defaultIpTable, iptableFWDChain) : CKey)).erase fwdJumpSpec := by
  cases f <;>
    (rw [ccF7]
     simp +decide only [ccs_rules_ne]
     rw [ccF3]
     simp only [cleanupTrace, applyTrace_cons, applyTrace_nil]
     simp +decide only [applyCall_rules_untouched]
     rw [ccF1, removeJumpRulesTrace_eq]
     simp only [applyTrace_cons, applyTrace_nil]
     simp +decide only [applyCall_rules_untouched, rules_delete_builtin])

theorem pre_rules_prt (fw : Firewall) (f : Fam) :
    (ccF7 fw).rules ((f, defaultNatTable, nattablePRTChain) : CKey) =
      (fw.rules ((f, defaultNatTable, nattablePRTChain) : CKey)).erase natJumpSpec := by
  cases f <;>
    (rw [ccF7]
     simp +decide only [ccs_rules_ne]
     rw [ccF3]
     simp only [cleanupTrace, applyTrace_cons, applyTrace_nil]
     simp +decide only [applyCall_rules_untouched]
     rw [ccF1, removeJumpRulesTrace_eq]
     simp only [applyTrace_cons, applyTrace_nil]
     simp +decide only [applyCall_rules_untouched, rules_delete_builtin])

theorem pre_rules_nmf (fw : Firewall) (f : Fam) :
    (ccF7 fw).rules ((f, defaultIpTable, netmakerFilterChain) : CKey) = [] := by
  cases f
  · rw [ccF7]
    simp +decide only [ccs_rules_ne]
    exact ccs_rules_new _ _ _ _ (ccF7_guard_nmf_v4 fw)
  · rw [ccF7]
    simp +decide only [ccs_rules_ne]
    exact ccs_rules_new _ _ _ _ (ccF7_guard_nmf_v6 fw)

theorem pre_rules_nmn (fw : Firewall) (f : Fam) :
    (ccF7 fw).rules ((f, defaultNatTable, netmakerNatChain) : CKey) = [] := by
  cases f
  · rw [ccF7]
    simp +decide only [ccs_rules_ne]
    exact ccs_rules_new _ _ _ _ (ccF7_guard_nmn_v4 fw)
  · rw [ccF7]
    exact ccs_rules_new _ _ _ _ (ccF7_guard_nmn_v6 fw)

theorem ccF7_chainOk_nmf (fw : Firewall) (f : Fam) :
    chainOk (ccF7 fw).chains ((f, defaultIpTable, netmakerFilterChain) : CKey) = true := by
  rw [ccF7_chains]
  cases f <;> simp [chainOk, List.mem_append, kNMF, kNMN]

theorem ccF7_chainOk_nmn (fw : Firewall) (f : Fam) :
    chainOk (ccF7 fw).chains ((f, defaultNatTable, netmakerNatChain) : CKey) = true := by
  rw [ccF7_chains]
  cases f <;> simp [chainOk, List.mem_append, kNMF, kNMN]

theorem createChainsFw_rules_fwd (fw : Firewall) (f : Fam) :
    (createChainsFw fw).rules ((f, defaultIpTable, iptableFWDChain) : CKey) =
      (fw.rules ((f, defaultIpTable, iptableFWDChain) : CKey)).erase fwdJumpSpec ++
        [fwdJumpSpec] := by
  cases f <;>
    (rw [createChainsFw_eq_stages, addJumpRulesTrace_eq]
     simp only [applyTrace_cons, applyTrace_nil]
     simp +decide only [applyCall_rules_untouched, rules_append_self, chainOk_builtin,
       pre_rules_fwd])

theorem createChainsFw_rules_prt (fw : Firewall) (f : Fam) :
    (createChainsFw fw).rules ((f, defaultNatTable, nattablePRTChain) : CKey) =
      (fw.rules ((f, defaultNatTable, nattablePRTChain) : CKey)).erase natJumpSpec ++
        [natJumpSpec] := by
  cases f <;>
    (rw [createChainsFw_eq_stages, addJumpRulesTrace_eq]
     simp only [applyTrace_cons, applyTrace_nil]
     simp +decide only [applyCall_rules_untouched, rules_append_self, chainOk_builtin,
       pre_rules_prt])

theorem createChainsFw_rules_nmf (fw : Firewall) (f : Fam) :
    (createChainsFw fw).rules ((f, defaultIpTable, netmakerFilterChain) : CKey) =
      [dropJumpSpec, retJumpSpec] := by
  cases f <;>
    (rw [createChainsFw_eq_stages, addJumpRulesTrace_eq]
     simp only [applyTrace_cons, applyTrace_nil]
     simp +decide only [applyCall_rules_untouched, rules_append_self,
       applyCall_chains_keep, ccF7_chainOk_nmf, pre_rules_nmf])

theorem createChainsFw_rules_nmn (fw : Firewall) (f : Fam) :
    (createChainsFw fw).rules ((f, defaultNatTable, netmakerNatChain) : CKey) =
      [natRetSpec] := by
  cases f <;>
    (rw [createChainsFw_eq_stages, addJumpRulesTrace_eq]
     simp only [applyTrace_cons, applyTrace_nil]
     simp +decide only [applyCall_rules_untouched, rules_append_self,
       applyCall_chains_keep, ccF7_chainOk_nmn, pre_rules_nmn])

theorem createChainsFw_chains (fw : Firewall) :
    (createChainsFw fw).chains =
      ((((fw.chains.filter (fun c => decide (c ≠ kNMF .v4))).filter
        (fun c => decide (c ≠ kNMF .v6))).filter
        (fun c => decide (c ≠ kNMN .v4))).filter
        (fun c => decide (c ≠ kNMN .v6))) ++ [kNMF .v4, kNMN .v4, kNMF .v6, kNMN .v6] := by
  rw [createChainsFw_eq_stages, applyTrace_chains_keep _ _ (by decide), ccF7_chains,
    ccF3_chains]

theorem removeJump_untouched (k : CKey) (h : k ∉ touchedKeys) :
    ∀ c ∈ removeJumpRulesTrace, callTouches c k = false := by
  simp only [touchedKeys, kFWD, kNMF, kPRT, kNMN, List.mem_cons, List.not_mem_nil,
    or_false, not_or] at h
  obtain ⟨h1, h2, h3, h4, h5, h6, h7, h8⟩ := h
  intro c hc
  rw [removeJumpRulesTrace_eq] at hc
  simp only [List.mem_cons, List.not_mem_nil, or_false] at hc
  rcases hc with rfl | rfl | rfl | rfl | rfl | rfl | rfl | rfl | rfl | rfl <;>
    simp only [callTouches] <;>
    first
    | exact decide_eq_false (fun he => h1 he.symm)
    | exact decide_eq_false (fun he => h2 he.symm)
    | exact decide_eq_false (fun he => h3 he.symm)
    | exact decide_eq_false (fun he => h4 he.symm)
    | exact decide_eq_false (fun he => h5 he.symm)
    | exact decide_eq_false (fun he => h6 he.symm)
    | exact decide_eq_false (fun he => h7 he.symm)
    | exact decide_eq_false (fun he => h8 he.symm)

theorem addJump_untouched (k : CKey) (h : k ∉ touchedKeys) :
    ∀ c ∈ addJumpRulesTrace, callTouches c k = false := by
  simp only [touchedKeys, kFWD, kNMF, kPRT, kNMN, List.mem_cons, List.not_mem_nil,
    or_false, not_or] at h
  obtain ⟨h1, h2, h3, h4, h5, h6, h7, h8⟩ := h
  intro c hc
  rw [addJumpRulesTrace_eq] at hc
  simp only [List.mem_cons, List.not_mem_nil, or_false] at hc
  rcases hc with rfl | rfl | rfl | rfl | rfl | rfl | rfl | rfl | rfl | rfl <;>
    simp only [callTouches] <;>
    first
    | exact decide_eq_false (fun he => h1 he.symm)
    | exact decide_eq_false (fun he => h2 he.symm)
    | exact decide_eq_false (fun he => h3 he.symm)
    | exact decide_eq_false (fun he => h4 he.symm)
    | exact decide_eq_false (fun he => h5 he.symm)
    | exact decide_eq_false (fun he => h6 he.symm)
    | exact decide_eq_false (fun he => h7 he.symm)
    | exact decide_eq_false (fun he => h8 he.symm)

theorem cleanupF_untouched (k : CKey) (h : k ∉ touchedKeys) :
    ∀ c ∈ cleanupTrace defaultIpTable netmakerFilterChain, callTouches c k = false := by
  simp only [touchedKeys, kFWD, kNMF, kPRT, kNMN, List.mem_cons, List.not_mem_nil,
    or_false, not_or] at h
  obtain ⟨h1, h2, h3, h4, h5, h6, h7, h8⟩ := h
  intro c hc
  simp only [cleanupTrace, List.mem_cons, List.not_mem_nil, or_false] at hc
  rcases hc with rfl | rfl <;>
    simp only [callTouches] <;>
    first
    | exact decide_eq_false (fun he => h3 he.symm)
    | exact decide_eq_false (fun he => h4 he.symm)

theorem cleanupN_untouched (k : CKey) (h : k ∉ touchedKeys) :
    ∀ c ∈ cleanupTrace defaultNatTable netmakerNatChain, callTouches c k = false := by
  simp only [touchedKeys, kFWD, kNMF, kPRT, kNMN, List.mem_cons, List.not_mem_nil,
    or_false, not_or] at h
  obtain ⟨h1, h2, h3, h4, h5, h6, h7, h8⟩ := h
  intro c hc
  simp only [cleanupTrace, List.mem_cons, List.not_mem_nil, or_false] at hc
  rcases hc with rfl | rfl <;>
    simp only [callTouches] <;>
    first
    | exact decide_eq_false (fun he => h7 he.symm)
    | exact decide_eq_false (fun he => h8 he.symm)

theorem createChainsFw_rules_other (fw : Firewall) (k : CKey) (h : k ∉ touchedKeys) :
    (createChainsFw fw).rules k = fw.rules k := by
  have hk : (k ≠ ((Fam.v4, defaultIpTable, netmakerFilterChain) : CKey)) ∧
      (k ≠ ((Fam.v6, defaultIpTable, netmakerFilterChain) : CKey)) ∧
      (k ≠ ((Fam.v4, defaultNatTable, netmakerNatChain) : CKey)) ∧
      (k ≠ ((Fam.v6, defaultNatTable, netmakerNatChain) : CKey)) := by
    simp only [touchedKeys, kFWD, kNMF, kPRT, kNMN, List.mem_cons, List.not_mem_nil,
      or_false, not_or] at h
    exact ⟨h.2.2.1, h.2.2.2.1, h.2.2.2.2.2.2.1, h.2.2.2.2.2.2.2⟩
  rw [createChainsFw_eq_stages,
    applyTrace_rules_untouched _ _ _ (addJump_untouched k h), ccF7,
    ccs_rules_ne _ _ _ _ _ hk.2.2.2, ccs_rules_ne _ _ _ _ _ hk.2.1,
    ccs_rules_ne _ _ _ _ _ hk.2.2.1, ccs_rules_ne _ _ _ _ _ hk.1, ccF3,
    applyTrace_rules_untouched _ _ _ (cleanupN_untouched k h),
    applyTrace_rules_untouched _ _ _ (cleanupF_untouched k h), ccF1,
    applyTrace_rules_untouched _ _ _ (removeJump_untouched k h)]

theorem createChainsFw_chains_filt4 (fw : Firewall) :
    (createChainsFw fw).chains =
      filt4 fw.chains ++ [kNMF .v4, kNMN .v4, kNMF .v6, kNMN .v6] := by
  rw [createChainsFw_chains]
  rfl

theorem filt4_append (a b : List CKey) : filt4 (a ++ b) = filt4 a ++ filt4 b := by
  simp [filt4, List.filter_append]

theorem filt4_customs : filt4 [kNMF .v4, kNMN .v4, kNMF .v6, kNMN .v6] = [] := by
  decide

theorem filt4_idem (cs : List CKey) : filt4 (filt4 cs) = filt4 cs := by
  have m1 : ∀ a ∈ filt4 cs, (fun c : CKey => decide (c ≠ kNMF .v4)) a = true := by
    intro a ha
    simp only [filt4] at ha
    exact (List.mem_filter.mp (List.mem_of_mem_filter (List.mem_of_mem_filter
      (List.mem_of_mem_filter ha)))).2
  have m2 : ∀ a ∈ filt4 cs, (fun c : CKey => decide (c ≠ kNMF .v6)) a = true := by
    intro a ha
    simp only [filt4] at ha
    exact (List.mem_filter.mp (List.mem_of_mem_filter (List.mem_of_mem_filter ha))).2
  have m3 : ∀ a ∈ filt4 cs, (fun c : CKey => decide (c ≠ kNMN .v4)) a = true := by
    intro a ha
    simp only [filt4] at ha
    exact (List.mem_filter.mp (List.mem_of_mem_filter ha)).2
  have m4 : ∀ a ∈ filt4 cs, (fun c : CKey => decide (c ≠ kNMN .v6)) a = true := by
    intro a ha
    simp only [filt4] at ha
    exact (List.mem_filter.mp ha).2
  conv_lhs => rw [filt4]
  rw [List.filter_eq_self.mpr m1, List.filter_eq_self.mpr m2, List.filter_eq_self.mpr m3,
    List.filter_eq_self.mpr m4]

theorem notmem_erase_of_count_le_one (a : Args) (l : List Args) (h : l.count a ≤ 1) :
    a ∉ l.erase a := by
  intro hmem
  have hc := List.count_erase_self a l
  have hpos : 0 < (l.erase a).count a := List.count_pos_iff.mpr hmem
  omega

theorem erase_append_singleton (a : Args) (l : List Args) (h : l.count a ≤ 1) :
    ((l.erase a) ++ [a]).erase a = l.erase a := by
  rw [List.erase_append_right _ (notmem_erase_of_count_le_one a l h)]
  simp

/-- Claim C7, confirmed: starting from any firewall state in which each
built-in-chain jump rule is installed at most once (as the design
maintains), running `CreateChains` twice yields exactly the same firewall
state — same chain set and same rule list in every chain — as running it
once: each call first removes the jump rules and flushes-and-deletes both
custom chains before re-creating them, so no duplicate jump rules
accumulate. -/
theorem c7_createchains_idempotent (fw : Firewall)
    (h1 : (fw.rules (kFWD .v4)).count fwdJumpSpec ≤ 1)
    (h2 : (fw.rules (kFWD .v6)).count fwdJumpSpec ≤ 1)
    (h3 : (fw.rules (kPRT .v4)).count natJumpSpec ≤ 1)
    (h4 : (fw.rules (kPRT .v6)).count natJumpSpec ≤ 1) :
    fwEquiv (createChainsFw (createChainsFw fw)) (createChainsFw fw) := by
  replace h1 : (fw.rules ((Fam.v4, defaultIpTable, iptableFWDChain) : CKey)).count
    fwdJumpSpec ≤ 1 := h1
  replace h2 : (fw.rules ((Fam.v6, defaultIpTable, iptableFWDChain) : CKey)).count
    fwdJumpSpec ≤ 1 := h2
  replace h3 : (fw.rules ((Fam.v4, defaultNatTable, nattablePRTChain) : CKey)).count
    natJumpSpec ≤ 1 := h3
  replace h4 : (fw.rules ((Fam.v6, defaultNatTable, nattablePRTChain) : CKey)).count
    natJumpSpec ≤ 1 := h4
  constructor
  · rw [createChainsFw_chains_filt4, createChainsFw_chains_filt4, filt4_append,
      filt4_customs, filt4_idem]
    simp
  · intro k
    by_cases e1 : k = ((Fam.v4, defaultIpTable, iptableFWDChain) : CKey)
    · subst e1
      rw [createChainsFw_rules_fwd, createChainsFw_rules_fwd,
        erase_append_singleton _ _ h1]
    by_cases e2 : k = ((Fam.v6, defaultIpTable, iptableFWDChain) : CKey)
    · subst e2
      rw [createChainsFw_rules_fwd, createChainsFw_rules_fwd,
        erase_append_singleton _ _ h2]
    by_cases e3 : k = ((Fam.v4, defaultIpTable, netmakerFilterChain) : CKey)
    · subst e3
      rw [createChainsFw_rules_nmf, createChainsFw_rules_nmf]
    by_cases e4 : k = ((Fam.v6, defaultIpTable, netmakerFilterChain) : CKey)
    · subst e4
      rw [createChainsFw_rules_nmf, createChainsFw_rules_nmf]
    by_cases e5 : k = ((Fam.v4, defaultNatTable, nattablePRTChain) : CKey)
    · subst e5
      rw [createChainsFw_rules_prt, createChainsFw_rules_prt,
        erase_append_singleton _ _ h3]
    by_cases e6 : k = ((Fam.v6, defaultNatTable, nattablePRTChain) : CKey)
    · subst e6
      rw [createChainsFw_rules_prt, createChainsFw_rules_prt,
        erase_append_singleton _ _ h4]
    by_cases e7 : k = ((Fam.v4, defaultNatTable, netmakerNatChain) : CKey)
    · subst e7
      rw [createChainsFw_rules_nmn, createChainsFw_rules_nmn]
    by_cases e8 : k = ((Fam.v6, defaultNatTable, netmakerNatChain) : CKey)
    · subst e8
      rw [createChainsFw_rules_nmn, createChainsFw_rules_nmn]
    have hk : k ∉ touchedKeys := by
      simp only [touchedKeys, kFWD, kNMF, kPRT, kNMN, List.mem_cons, List.not_mem_nil,
        or_false, not_or]
      exact ⟨e1, e2, e3, e4, e5, e6, e7, e8⟩
    rw [createChainsFw_rules_other _ _ hk]

/-- Claim C7, witness: the theorem at the empty firewall state. -/
theorem c7_witness :
    (createChainsFw (createChainsFw ⟨[], fun _ => []⟩)).chains =
      (createChainsFw ⟨[], fun _ => []⟩).chains ∧
    (createChainsFw (createChainsFw ⟨[], fun _ => []⟩)).rules (kFWD .v4) =
      (createChainsFw ⟨[], fun _ => []⟩).rules (kFWD .v4) := by
  have h := c7_createchains_idempotent ⟨[], fun _ => []⟩ (by decide) (by decide)
    (by decide) (by decide)
  exact ⟨h.1, h.2 (kFWD .v4)⟩

/-- Claim C4, witness: the amended theorem at a concrete input; the
rule-table state and trace of the second call equal those of the first,
and membership of the inserted allow rule in the filter chain is the same
after one and after two applications. -/
theorem c4_witness :
    (insertIngressRoutingRules (insertIngressRoutingRules [] "s"
        (⟨"c", .ok false "10.0.0.1/32", false, [⟨"p", .ok false "10.0.0.2/32", true⟩]⟩ :
          ExtClientInfo)).ing "s"
        (⟨"c", .ok false "10.0.0.1/32", false, [⟨"p", .ok false "10.0.0.2/32", true⟩]⟩ :
          ExtClientInfo)).ing =
      (insertIngressRoutingRules [] "s"
        (⟨"c", .ok false "10.0.0.1/32", false, [⟨"p", .ok false "10.0.0.2/32", true⟩]⟩ :
          ExtClientInfo)).ing ∧
    (["-s", "10.0.0.1/32", "-d", "10.0.0.2/32", "-j", "ACCEPT"] ∈
        (applyTrace (applyTrace
          (⟨[(Fam.v4, defaultIpTable, netmakerFilterChain)], fun _ => []⟩ : Firewall)
          (insertIngressRoutingRules [] "s"
            (⟨"c", .ok false "10.0.0.1/32", false, [⟨"p", .ok false "10.0.0.2/32", true⟩]⟩ :
              ExtClientInfo)).trace)
          (insertIngressRoutingRules (insertIngressRoutingRules [] "s"
            (⟨"c", .ok false "10.0.0.1/32", false, [⟨"p", .ok false "10.0.0.2/32", true⟩]⟩ :
              ExtClientInfo)).ing "s"
            (⟨"c", .ok false "10.0.0.1/32", false, [⟨"p", .ok false "10.0.0.2/32", true⟩]⟩ :
              ExtClientInfo)).trace).rules (Fam.v4, defaultIpTable, netmakerFilterChain) ↔
      ["-s", "10.0.0.1/32", "-d", "10.0.0.2/32", "-j", "ACCEPT"] ∈
        (applyTrace
          (⟨[(Fam.v4, defaultIpTable, netmakerFilterChain)], fun _ => []⟩ : Firewall)
          (insertIngressRoutingRules [] "s"
            (⟨"c", .ok false "10.0.0.1/32", false, [⟨"p", .ok false "10.0.0.2/32", true⟩]⟩ :
              ExtClientInfo)).trace).rules (Fam.v4, defaultIpTable, netmakerFilterChain)) := by
  have h := c4_reapply [] "s"
    ⟨"c", .ok false "10.0.0.1/32", false, [⟨"p", .ok false "10.0.0.2/32", true⟩]⟩ false
    ⟨[(Fam.v4, defaultIpTable, netmakerFilterChain)], fun _ => []⟩ (by decide)
  exact ⟨h.1, h.2.2 (Fam.v4, defaultIpTable, netmakerFilterChain)
    ["-s", "10.0.0.1/32", "-d", "10.0.0.2/32", "-j", "ACCEPT"]⟩

end NC
